import Mathlib

/-!
Verification of the grid BFS route finder (`exmapacidade.py`).

Shallow embedding of the Python module `exmapacidade.py`:

* `encontrar_melhor_rota` — breadth-first search over a character grid,
  returning the optimal route, the discarded explored segments, the grid,
  and the visitation snapshots.  The Python `while` loop is modelled with
  explicit fuel `linhas * colunas + 1`, which is proved sufficient
  (each loop iteration strictly decreases `(bound - |visitados|) + |fila|`).
* `plotar_mapa_final_matriz` — the pure cell-classification matrix built by
  `plotar_mapa_final` (the matplotlib drawing itself is out of scope).

Coordinates are `Int × Int` pairs as in the Python source (row, column).
A grid is a `List (List Char)`.  `encontrar_melhor_rota` returns `none`
exactly when the Python function would raise (`mapa = []` makes
`len(mapa[0])` raise `IndexError`); otherwise it returns `some` of the
4-tuple the Python function returns.
-/

/-- A cell coordinate `(row, column)`, as the Python `(r, c)` tuples. -/
abbrev Cell : Type := Int × Int

/-- `len(mapa)` — number of rows. -/
def linhasDe (mapa : List (List Char)) : Nat := mapa.length

/-- `len(mapa[0])` — number of columns, read from the first row. -/
def colunasDe (mapa : List (List Char)) : Nat := (mapa.headD []).length

/-- `mapa[r][c]`.  The Python code only performs this access after a bounds
check (or inside `range` loops), so the default `' '` is never relevant on
the executed paths. -/
def getCell (mapa : List (List Char)) (r c : Int) : Char :=
  (mapa.getD r.toNat []).getD c.toNat ' '

/-- The neighbour offsets of line 94 of the source, in source order:
`direcoes = [(-1, 0), (1, 0), (0, -1), (0, 1)]`. -/
def direcoes : List (Int × Int) := [(-1, 0), (1, 0), (0, -1), (0, 1)]

/-- The marker scan of lines 50–55: row-major sweep recording the last seen
`'E'` as `partida` and the last seen `'S'` as `destino`. -/
def varrerMarcadores (mapa : List (List Char)) : Option Cell × Option Cell :=
  (List.range (linhasDe mapa)).foldl (fun acc (r : Nat) =>
    (List.range (colunasDe mapa)).foldl (fun acc2 (c : Nat) =>
      if getCell mapa ↑r ↑c = 'E' then (some (↑r, ↑c), acc2.2)
      else if getCell mapa ↑r ↑c = 'S' then (acc2.1, some (↑r, ↑c))
      else acc2) acc) (none, none)

/-- The admission test of lines 99–101: the new position is inside the grid,
is not a congestion marker `'#'`, and has not been visited. -/
def condEntrada (mapa : List (List Char)) (vis : List Cell) (rn cn : Int) : Prop :=
  0 ≤ rn ∧ rn < (linhasDe mapa : Int) ∧ 0 ≤ cn ∧ cn < (colunasDe mapa : Int) ∧
    getCell mapa rn cn ≠ '#' ∧ (rn, cn) ∉ vis

instance (mapa : List (List Char)) (vis : List Cell) (rn cn : Int) :
    Decidable (condEntrada mapa vis rn cn) :=
  inferInstanceAs (Decidable (_ ∧ _ ∧ _ ∧ _ ∧ _ ∧ _))

/-- One neighbour direction of the `for dr, dc in direcoes` loop
(lines 95–106): on success the cell is appended to `visitados` and the
extended route is enqueued. -/
def passoVizinho (mapa : List (List Char)) (r c : Int) (rota : List Cell)
    (acc : List Cell × List (Cell × List Cell)) (d : Int × Int) :
    List Cell × List (Cell × List Cell) :=
  let rn : Int := r + d.1
  let cn : Int := c + d.2
  if condEntrada mapa acc.1 rn cn then
    (acc.1 ++ [(rn, cn)], acc.2 ++ [((rn, cn), rota ++ [(rn, cn)])])
  else acc

/-- The whole neighbour loop, folding `passoVizinho` over a direction list. -/
def expandirCom (dirs : List (Int × Int)) (mapa : List (List Char)) (r c : Int)
    (rota : List Cell) (vis : List Cell) (fila : List (Cell × List Cell)) :
    List Cell × List (Cell × List Cell) :=
  dirs.foldl (passoVizinho mapa r c rota) (vis, fila)

/-- Two coordinate lists holding the same set of cells — Python's `==` on
`set` values, used by the `set(visitados) not in exploration_snapshots`
test of line 89. -/
def MesmoConjunto (a b : List Cell) : Prop :=
  (∀ x ∈ a, x ∈ b) ∧ (∀ x ∈ b, x ∈ a)

instance (a b : List Cell) : Decidable (MesmoConjunto a b) :=
  inferInstanceAs (Decidable (_ ∧ _))

/-- The mutable state of the `while fila:` loop (lines 61–91). -/
structure BFSState where
  fila : List (Cell × List Cell)
  visitados : List Cell
  todos : List (List Cell)
  snaps : List (List Cell)
  step : Nat
  rota : Option (List Cell)
  deriving Repr, DecidableEq

/-- Queue and state right after lines 62–74. -/
def estadoInicial (partida : Cell) : BFSState :=
  { fila := [(partida, [partida])], visitados := [partida],
    todos := [], snaps := [], step := 0, rota := none }

/-- The `while fila:` loop of lines 76–106, parametrised by the direction
list and run on explicit fuel.  One unfolding is one dequeue: record the
route (line 79), take the periodic / arrival snapshot (lines 82–83),
increment the counter (line 84), then either stop at the destination
(lines 87–91, including the duplicate-snapshot guard) or expand the four
neighbours (lines 94–106). -/
def loopBFSCom (dirs : List (Int × Int)) (mapa : List (List Char))
    (destino : Cell) : Nat → BFSState → BFSState
  | 0, s => s
  | fuel + 1, s =>
    match s.fila with
    | [] => s
    | (cel, rota) :: resto =>
      let todos := s.todos ++ [rota]
      let snaps := if s.step % 5 = 0 ∨ cel = destino then s.snaps ++ [s.visitados]
        else s.snaps
      let step := s.step + 1
      if cel = destino then
        let snaps2 := if ∃ t ∈ snaps, MesmoConjunto t s.visitados then snaps
          else snaps ++ [s.visitados]
        { fila := resto, visitados := s.visitados, todos := todos,
          snaps := snaps2, step := step, rota := some rota }
      else
        let ve := expandirCom dirs mapa cel.1 cel.2 rota s.visitados resto
        loopBFSCom dirs mapa destino fuel
          { fila := ve.2, visitados := ve.1, todos := todos,
            snaps := snaps, step := step, rota := s.rota }

/-- The search loop with the source's direction list and fuel
`linhas * colunas + 1` (proved sufficient below: there are at most
`linhas * colunas` dequeues). -/
def buscar (mapa : List (List Char)) (partida destino : Cell) : BFSState :=
  loopBFSCom direcoes mapa destino (linhasDe mapa * colunasDe mapa + 1)
    (estadoInicial partida)

/-- Lines 108–122: the discarded-route filter.  The `if rota_ideal:` test is
Python truthiness, so `None` and the empty list both select the second
branch. -/
def descartadasOf (rota : Option (List Cell)) (todos : List (List Cell)) :
    List (List Cell) :=
  match rota with
  | some (p :: ri) =>
    todos.filter (fun seg =>
      decide (∃ pt ∈ seg, pt ∉ (p :: ri)) && decide (seg ≠ p :: ri))
  | _ => todos.filter (fun seg => decide (1 < seg.length))

/-- `encontrar_melhor_rota` (lines 36–124).  `none` models the `IndexError`
Python raises on `len(mapa[0])` when the grid has no rows; every other
input yields `some` of the returned 4-tuple. -/
def encontrar_melhor_rota (mapa : List (List Char)) :
    Option (Option (List Cell) × List (List Cell) × List (List Char) × List (List Cell)) :=
  match mapa with
  | [] => none
  | _ :: _ =>
    match varrerMarcadores mapa with
    | (some partida, some destino) =>
      let s := buscar mapa partida destino
      some (s.rota, descartadasOf s.rota s.todos, mapa, s.snaps)
    | _ => some (none, [], mapa, [])

/-- The 3×3 scenario grid of the specification, §8. -/
def mapa3 : List (List Char) := [['E', ' ', '#'], [' ', '#', ' '], [' ', ' ', 'S']]

/-- A 3×3 grid with two shortest routes of equal length, one turning west
first and one turning east first; it separates the two direction orders. -/
def gridTie : List (List Char) := [[' ', 'E', ' '], [' ', '#', ' '], [' ', 'S', ' ']]

/-- Modelled from the spec: the same search loop but with the neighbour
order the specification claims — north, south, east, west, i.e.
`[(-1, 0), (1, 0), (0, 1), (0, -1)]` (row−1, row+1, column+1, column−1).
Used only to compare the claimed order against the source order. -/
def buscarSpecOrdem (mapa : List (List Char)) (partida destino : Cell) : BFSState :=
  loopBFSCom [(-1, 0), (1, 0), (0, 1), (0, -1)] mapa destino
    (linhasDe mapa * colunasDe mapa + 1) (estadoInicial partida)

/-! ## Grid-graph notions (bounds, free cells, steps, routes) -/

/-- The coordinate lies inside the `linhas × colunas` grid. -/
def InB (mapa : List (List Char)) (v : Cell) : Prop :=
  0 ≤ v.1 ∧ v.1 < (linhasDe mapa : Int) ∧ 0 ≤ v.2 ∧ v.2 < (colunasDe mapa : Int)

instance (mapa : List (List Char)) (v : Cell) : Decidable (InB mapa v) :=
  inferInstanceAs (Decidable (_ ∧ _ ∧ _ ∧ _))

/-- The cell is inside the grid and is not a congestion marker. -/
def Livre (mapa : List (List Char)) (v : Cell) : Prop :=
  InB mapa v ∧ getCell mapa v.1 v.2 ≠ '#'

instance (mapa : List (List Char)) (v : Cell) : Decidable (Livre mapa v) :=
  inferInstanceAs (Decidable (_ ∧ _))

/-- One admissible move of the search: `v` is one of the four neighbours of
`u` and is a free in-bounds cell. -/
def Passo (mapa : List (List Char)) (u v : Cell) : Prop :=
  (∃ d ∈ direcoes, v = (u.1 + d.1, u.2 + d.2)) ∧ Livre mapa v

instance (mapa : List (List Char)) (u v : Cell) : Decidable (Passo mapa u v) :=
  inferInstanceAs (Decidable (_ ∧ _))

/-- 4-connectedness: the two cells differ by one in exactly one coordinate. -/
def Adjacente (u v : Cell) : Prop :=
  (v.1 - u.1).natAbs + (v.2 - u.2).natAbs = 1

/-- An executable decision procedure for `List.Chain'` (the library instance
is tactic-built and does not reduce in the kernel). -/
def cadeiaDecidivel {α : Type} (R : α → α → Prop) [DecidableRel R] :
    (l : List α) → Decidable (List.Chain' R l)
  | [] => isTrue List.chain'_nil
  | [a] => isTrue (List.chain'_singleton a)
  | a :: b :: t =>
    have : Decidable (List.Chain' R (b :: t)) := cadeiaDecidivel R (b :: t)
    decidable_of_iff (R a b ∧ List.Chain' R (b :: t)) List.chain'_cons.symm

/-- A route from `partida` to `destino`: nonempty, starts at `partida`,
each step is an admissible move, and it ends at `destino`. -/
def CaminhoAte (mapa : List (List Char)) (partida destino : Cell)
    (p : List Cell) : Prop :=
  p.head? = some partida ∧ List.Chain' (Passo mapa) p ∧ p.getLast? = some destino

instance (mapa : List (List Char)) (partida destino : Cell) (p : List Cell) :
    Decidable (CaminhoAte mapa partida destino p) :=
  have : Decidable (List.Chain' (Passo mapa) p) := cadeiaDecidivel (Passo mapa) p
  inferInstanceAs (Decidable (_ ∧ _ ∧ _))

/-- All positions of the grid in row-major order, as scanned by lines 50–51. -/
def posicoesGrade (mapa : List (List Char)) : List Cell :=
  (List.range (linhasDe mapa)).flatMap (fun (r : Nat) =>
    (List.range (colunasDe mapa)).map (fun (c : Nat) => ((↑r, ↑c) : Cell)))

/-- The row-major positions whose cell carries the character `ch`. -/
def posicoesDe (mapa : List (List Char)) (ch : Char) : List Cell :=
  (posicoesGrade mapa).filter (fun v => decide (getCell mapa v.1 v.2 = ch))

/-- The grid is nonempty and all rows have the length of the first row
(the precondition of §4.1). -/
def Retangular (mapa : List (List Char)) : Prop :=
  mapa ≠ [] ∧ ∀ row ∈ mapa, row.length = colunasDe mapa

/-- The body of the marker scan at one position: record `'E'` as the new
start, `'S'` as the new destination, leave anything else alone. -/
def passoMarcador (mapa : List (List Char)) (acc : Option Cell × Option Cell)
    (v : Cell) : Option Cell × Option Cell :=
  if getCell mapa v.1 v.2 = 'E' then (some v, acc.2)
  else if getCell mapa v.1 v.2 = 'S' then (acc.1, some v)
  else acc

/-! ## The final-map classification matrix (`plotar_mapa_final`, lines 188–214) -/

/-- Lines 193–202: the base classification — `1` congestion, `2` start,
`3` destination, `0` free street. -/
def classificarBase (mapa : List (List Char)) : List (List Nat) :=
  (List.range (linhasDe mapa)).map fun (r : Nat) =>
    (List.range (colunasDe mapa)).map fun (c : Nat) =>
      if getCell mapa ↑r ↑c = '#' then 1
      else if getCell mapa ↑r ↑c = 'E' then 2
      else if getCell mapa ↑r ↑c = 'S' then 3
      else 0

/-- `map_matrix[r][c]` (read). -/
def mget (m : List (List Nat)) (r c : Nat) : Nat := (m.getD r []).getD c 0

/-- `map_matrix[r][c] = val` (write). -/
def mset (m : List (List Nat)) (v : Cell) (val : Nat) : List (List Nat) :=
  m.set v.1.toNat ((m.getD v.1.toNat []).set v.2.toNat val)

/-- Lines 205–208: paint each visited cell `5` (discarded route), but only
over free street (`0`). -/
def pintarDescartadas (m : List (List Nat)) (cells : List Cell) : List (List Nat) :=
  cells.foldl (fun m v => if mget m v.1.toNat v.2.toNat = 0 then mset m v 5 else m) m

/-- Lines 210–214: paint each cell of the ideal route `4`, over free street
(`0`) or discarded paint (`5`). -/
def pintarRota (m : List (List Nat)) (cells : List Cell) : List (List Nat) :=
  cells.foldl (fun m v =>
    if mget m v.1.toNat v.2.toNat = 0 ∨ mget m v.1.toNat v.2.toNat = 5 then mset m v 4
    else m) m

/-- The classification matrix built by `plotar_mapa_final` before it is
handed to matplotlib: base classes, then discarded paint, then ideal-route
paint.  `rota_ideal.getD []` renders Python's `if rota_ideal:` truthiness
(`None` and `[]` both skip the loop). -/
def plotar_mapa_final_matriz (mapa : List (List Char)) (rota_ideal : Option (List Cell))
    (final_visited_cells : List Cell) : List (List Nat) :=
  pintarRota (pintarDescartadas (classificarBase mapa) final_visited_cells)
    (rota_ideal.getD [])

/-! ## Search invariants -/

/-- A route paired with its optimum-possible length: it reaches `destino`
and no admissible route is shorter. -/
def RotaOtima (mapa : List (List Char)) (partida destino : Cell)
    (p : List Cell) : Prop :=
  CaminhoAte mapa partida destino p ∧
    ∀ q, CaminhoAte mapa partida destino q → p.length ≤ q.length

/-- What is true of every queue entry `(cell, route)`: the route starts at
`partida`, moves by admissible steps, ends at the entry's cell, repeats no
cell, and stays inside the visited set. -/
structure EntradaOk (mapa : List (List Char)) (partida : Cell) (vis : List Cell)
    (e : Cell × List Cell) : Prop where
  cabeca : e.2.head? = some partida
  cadeia : List.Chain' (Passo mapa) e.2
  ultimo : e.2.getLast? = some e.1
  semRep : e.2.Nodup
  dentro : ∀ x ∈ e.2, x ∈ vis

/-- The breadth-first-search invariant tying the queue, the visited set and
the true route structure of the grid together. -/
structure InvBusca (mapa : List (List Char)) (partida destino : Cell)
    (s : BFSState) : Prop where
  visNodup : s.visitados.Nodup
  visInB : ∀ v ∈ s.visitados, InB mapa v
  visPartida : partida ∈ s.visitados
  entradas : ∀ e ∈ s.fila, EntradaOk mapa partida s.visitados e
  curtas : ∀ e ∈ s.fila, ∀ q, CaminhoAte mapa partida e.1 q → e.2.length ≤ q.length
  camadas : ∃ L A B, s.fila = A ++ B ∧ (∀ e ∈ A, e.2.length = L) ∧
    (∀ e ∈ B, e.2.length = L + 1) ∧ (A = [] → s.fila = []) ∧ 1 ≤ L ∧
    (∀ v q, CaminhoAte mapa partida v q → q.length ≤ L → v ∈ s.visitados)
  fecho : ∀ u ∈ s.visitados,
    (∃ p, (u, p) ∈ s.fila) ∨ (∀ v, Passo mapa u v → v ∈ s.visitados)
  metaNaFila : s.rota = none → destino ∈ s.visitados → ∃ p, (destino, p) ∈ s.fila

/-- The termination measure of the loop: unvisited-cell budget plus queue
length; every non-final iteration decreases it by exactly one. -/
def medida (mapa : List (List Char)) (s : BFSState) : Nat :=
  (linhasDe mapa * colunasDe mapa - s.visitados.length) + s.fila.length

/-- Witness grid with duplicated markers (for the duplicate-marker claim). -/
def mapaDup : List (List Char) := [['E', 'S'], ['E', 'S']]

/-- Witness grid for the final-map layering claim. -/
def mapaC8 : List (List Char) := [['E', ' '], [' ', 'S']]

/-- A well-shaped `lin × col` matrix. -/
def MatrizBoa (m : List (List Nat)) (lin col : Nat) : Prop :=
  m.length = lin ∧ ∀ row ∈ m, row.length = col

/-- The coordinate lies inside a `lin × col` box (the precondition for a
matrix write: Python/numpy would raise or wrap otherwise). -/
def DentroDims (v : Cell) (lin col : Nat) : Prop :=
  0 ≤ v.1 ∧ v.1 < (lin : Int) ∧ 0 ≤ v.2 ∧ v.2 < (col : Int)

instance (v : Cell) (lin col : Nat) : Decidable (DentroDims v lin col) :=
  inferInstanceAs (Decidable (_ ∧ _ ∧ _ ∧ _))

/-! ## General list helpers -/

/-- Folding over a `flatMap` is the nested fold. -/
theorem foldl_flatMap_eq {α β γ : Type} (l : List α) (f : α → List β)
    (g : γ → β → γ) (init : γ) :
    (l.flatMap f).foldl g init = l.foldl (fun acc a => (f a).foldl g acc) init := by
  induction l generalizing init with
  | nil => rfl
  | cons a t ih => simp [List.flatMap_cons, List.foldl_append, ih]

/-- The last element of a nonempty list is a member. -/
theorem mem_de_getLast? {α : Type} {l : List α} {a : α}
    (h : l.getLast? = some a) : a ∈ l := by
  have hne : l ≠ [] := by
    intro he; subst he; simp at h
  rw [List.getLast?_eq_getLast l hne, Option.some.injEq] at h
  exact h ▸ List.getLast_mem hne

/-! ## The marker scan -/

/-- The nested scan of lines 50–55 is the fold of `passoMarcador` over the
row-major position list. -/
theorem varrer_eq_fold (mapa : List (List Char)) :
    varrerMarcadores mapa =
      (posicoesGrade mapa).foldl (passoMarcador mapa) (none, none) := by
  unfold varrerMarcadores posicoesGrade
  rw [foldl_flatMap_eq]
  simp only [List.foldl_map]
  rfl

/-- Folding the marker step keeps, per marker, the last matching position. -/
theorem fold_marcador_ultimo (mapa : List (List Char)) (l : List Cell)
    (acc : Option Cell × Option Cell) :
    l.foldl (passoMarcador mapa) acc =
      (((l.filter (fun v => decide (getCell mapa v.1 v.2 = 'E'))).getLast?).or acc.1,
       ((l.filter (fun v => decide (getCell mapa v.1 v.2 = 'S'))).getLast?).or acc.2) := by
  induction l using List.reverseRecOn with
  | nil => simp
  | append_singleton t v ih =>
    rw [List.foldl_append, ih]
    by_cases hE : getCell mapa v.1 v.2 = 'E'
    · have hS : ¬ getCell mapa v.1 v.2 = 'S' := by rw [hE]; decide
      simp [passoMarcador, hE, hS, List.filter_append, List.getLast?_append]
    · by_cases hS : getCell mapa v.1 v.2 = 'S'
      · simp [passoMarcador, hE, hS, List.filter_append, List.getLast?_append]
      · simp [passoMarcador, hE, hS, List.filter_append]

/-- The scan returns the last `'E'` and the last `'S'` in row-major order. -/
theorem varrer_ultimos (mapa : List (List Char)) :
    varrerMarcadores mapa =
      ((posicoesDe mapa 'E').getLast?, (posicoesDe mapa 'S').getLast?) := by
  rw [varrer_eq_fold, fold_marcador_ultimo]
  simp [posicoesDe]

/-- Membership in `posicoesDe` means: in-bounds position carrying `ch`. -/
theorem posicoesDe_espec (mapa : List (List Char)) (ch : Char) (v : Cell)
    (h : v ∈ posicoesDe mapa ch) : getCell mapa v.1 v.2 = ch ∧ InB mapa v := by
  rw [posicoesDe, List.mem_filter] at h
  obtain ⟨hmem, hch⟩ := h
  rw [decide_eq_true_eq] at hch
  refine ⟨hch, ?_⟩
  rw [posicoesGrade, List.mem_flatMap] at hmem
  obtain ⟨r, hr, hv⟩ := hmem
  rw [List.mem_map] at hv
  obtain ⟨c, hc, rfl⟩ := hv
  rw [List.mem_range] at hr hc
  refine ⟨?_, ?_, ?_, ?_⟩
  · show (0 : Int) ≤ ↑r
    exact Int.ofNat_nonneg r
  · show (↑r : Int) < ↑(linhasDe mapa)
    exact_mod_cast hr
  · show (0 : Int) ≤ ↑c
    exact Int.ofNat_nonneg c
  · show (↑c : Int) < ↑(colunasDe mapa)
    exact_mod_cast hc

/-- If the scan returned a start, that cell carries `'E'` and is in bounds. -/
theorem marcador_partida (mapa : List (List Char)) (p : Cell)
    (h : (varrerMarcadores mapa).1 = some p) :
    getCell mapa p.1 p.2 = 'E' ∧ InB mapa p := by
  rw [varrer_ultimos] at h
  exact posicoesDe_espec mapa 'E' p (mem_de_getLast? h)

/-- If the scan returned a destination, that cell carries `'S'` and is in
bounds. -/
theorem marcador_destino (mapa : List (List Char)) (p : Cell)
    (h : (varrerMarcadores mapa).2 = some p) :
    getCell mapa p.1 p.2 = 'S' ∧ InB mapa p := by
  rw [varrer_ultimos] at h
  exact posicoesDe_espec mapa 'S' p (mem_de_getLast? h)

/-- Any value `getCell` returns is the default `' '` or a character stored
in some row of the grid. -/
theorem getCell_origem (mapa : List (List Char)) (r c : Int) :
    getCell mapa r c = ' ' ∨ ∃ row ∈ mapa, getCell mapa r c ∈ row := by
  unfold getCell
  rcases Nat.lt_or_ge r.toNat mapa.length with h | h
  · have hrow : mapa.getD r.toNat [] = mapa[r.toNat] := by
      rw [List.getD_eq_getElem?_getD, List.getElem?_eq_getElem h]; rfl
    rw [hrow]
    rcases Nat.lt_or_ge c.toNat (mapa[r.toNat].length) with h2 | h2
    · right
      refine ⟨mapa[r.toNat], List.getElem_mem h, ?_⟩
      rw [List.getD_eq_getElem?_getD, List.getElem?_eq_getElem h2]
      exact List.getElem_mem h2
    · left
      rw [List.getD_eq_getElem?_getD, List.getElem?_eq_none h2]
      rfl
  · left
    have hvazio : mapa.getD r.toNat [] = [] := by
      rw [List.getD_eq_getElem?_getD, List.getElem?_eq_none h]
      rfl
    rw [hvazio]
    rfl

/-- A grid none of whose rows contains `ch` (with `ch` printable, not the
out-of-bounds default `' '`) has no `ch` positions. -/
theorem posicoesDe_vazio (mapa : List (List Char)) (ch : Char) (hch : ch ≠ ' ')
    (h : ∀ row ∈ mapa, ch ∉ row) : posicoesDe mapa ch = [] := by
  rw [posicoesDe, List.filter_eq_nil_iff]
  intro v _ hdec
  rw [decide_eq_true_eq] at hdec
  rcases getCell_origem mapa v.1 v.2 with h0 | ⟨row, hrow, hmem⟩
  · exact hch (hdec ▸ h0)
  · exact h row hrow (hdec ▸ hmem)

/-- C3: for every well-formed grid missing the start marker or the goal
marker, `encontrar_melhor_rota` completes without raising and returns
exactly `(none, [], grid, [])`. -/
theorem claim_C3_marcador_ausente (mapa : List (List Char)) (hret : Retangular mapa)
    (h : (∀ row ∈ mapa, 'E' ∉ row) ∨ (∀ row ∈ mapa, 'S' ∉ row)) :
    encontrar_melhor_rota mapa = some (none, [], mapa, []) := by
  obtain ⟨hne, -⟩ := hret
  have hvar := varrer_ultimos mapa
  have hvazio : (varrerMarcadores mapa).1 = none ∨ (varrerMarcadores mapa).2 = none := by
    rcases h with h | h
    · left
      rw [hvar, posicoesDe_vazio mapa 'E' (by decide) h]
      rfl
    · right
      rw [hvar, posicoesDe_vazio mapa 'S' (by decide) h]
      rfl
  cases mapa with
  | nil => exact absurd rfl hne
  | cons a t =>
    simp only [encontrar_melhor_rota]
    rcases hv : varrerMarcadores (a :: t) with ⟨p?, d?⟩
    rw [hv] at hvazio
    rcases p? with _ | p
    · rcases d? with _ | d <;> rfl
    · rcases d? with _ | d
      · rfl
      · simp at hvazio

theorem claim_C3_witness :
    Retangular [[' ']] ∧ (∀ row ∈ [[' ']], 'E' ∉ row) ∧
      encontrar_melhor_rota [[' ']] = some (none, [], [[' ']], []) :=
  ⟨⟨by decide, by decide⟩, by decide,
    claim_C3_marcador_ausente [[' ']] ⟨by decide, by decide⟩ (Or.inl (by decide))⟩

/-- C9: duplicated markers are not reported; the search silently uses the
last `'E'` and the last `'S'` in row-major scan order and proceeds
normally with them. -/
theorem claim_C9_marcadores_duplicados (mapa : List (List Char)) (hne : mapa ≠ [])
    (hE : posicoesDe mapa 'E' ≠ []) (hS : posicoesDe mapa 'S' ≠ []) :
    ∃ partida destino, (posicoesDe mapa 'E').getLast? = some partida ∧
      (posicoesDe mapa 'S').getLast? = some destino ∧
      varrerMarcadores mapa = (some partida, some destino) ∧
      encontrar_melhor_rota mapa =
        some ((buscar mapa partida destino).rota,
          descartadasOf (buscar mapa partida destino).rota
            (buscar mapa partida destino).todos,
          mapa, (buscar mapa partida destino).snaps) := by
  obtain ⟨partida, hp⟩ := Option.isSome_iff_exists.mp
    (List.getLast?_isSome.mpr hE)
  obtain ⟨destino, hd⟩ := Option.isSome_iff_exists.mp
    (List.getLast?_isSome.mpr hS)
  refine ⟨partida, destino, hp, hd, ?_, ?_⟩
  · rw [varrer_ultimos, hp, hd]
  · cases mapa with
    | nil => exact absurd rfl hne
    | cons a t =>
      simp only [encontrar_melhor_rota]
      rw [varrer_ultimos, hp, hd]

theorem claim_C9_witness :
    mapaDup ≠ [] ∧ posicoesDe mapaDup 'E' ≠ [] ∧ posicoesDe mapaDup 'S' ≠ [] ∧
      ∃ partida destino, (posicoesDe mapaDup 'E').getLast? = some partida ∧
        (posicoesDe mapaDup 'S').getLast? = some destino ∧
        varrerMarcadores mapaDup = (some partida, some destino) ∧
        encontrar_melhor_rota mapaDup =
          some ((buscar mapaDup partida destino).rota,
            descartadasOf (buscar mapaDup partida destino).rota
              (buscar mapaDup partida destino).todos,
            mapaDup, (buscar mapaDup partida destino).snaps) :=
  ⟨by decide, by decide, by decide,
    claim_C9_marcadores_duplicados mapaDup (by decide) (by decide) (by decide)⟩

/-- C7: on the 3×3 scenario grid the engine returns exactly the route
`(0,0), (1,0), (2,0), (2,1), (2,2)`, of length 5 (4 hops). -/
theorem claim_C7_cenario_concreto :
    encontrar_melhor_rota mapa3 =
      some (some [(0, 0), (1, 0), (2, 0), (2, 1), (2, 2)],
        [[(0, 0), (0, 1)]], mapa3,
        [[(0, 0)], [(0, 0), (1, 0), (0, 1), (2, 0), (2, 1), (2, 2)]]) ∧
    ([((0 : Int), (0 : Int)), (1, 0), (2, 0), (2, 1), (2, 2)] : List Cell).length = 5 :=
  ⟨rfl, rfl⟩

/-- C2 counterexample: the source's direction list is
`[(-1,0), (1,0), (0,-1), (0,1)]` — north, south, **west, east** — not the
claimed north, south, east, west, and on `gridTie` the claimed order would
return the east-turning route while the code returns the west-turning one. -/
theorem claim_C2_contraexemplo :
    direcoes ≠ [(-1, 0), (1, 0), (0, 1), (0, -1)] ∧
    (buscar gridTie (0, 1) (2, 1)).rota =
      some [(0, 1), (0, 0), (1, 0), (2, 0), (2, 1)] ∧
    (buscarSpecOrdem gridTie (0, 1) (2, 1)).rota =
      some [(0, 1), (0, 2), (1, 2), (2, 2), (2, 1)] ∧
    (buscar gridTie (0, 1) (2, 1)).rota ≠ (buscarSpecOrdem gridTie (0, 1) (2, 1)).rota :=
  ⟨by decide, rfl, rfl, by decide⟩

/-- C2 (amended): the four neighbour directions are evaluated in the fixed
order north, south, west, east — row−1, row+1, column−1, column+1 — and
this order together with FIFO dequeueing picks which equal-length shortest
route is returned (on `gridTie`, the west-turning one). -/
theorem claim_C2_emendada :
    direcoes = [(-1, 0), (1, 0), (0, -1), (0, 1)] ∧
    (buscar gridTie (0, 1) (2, 1)).rota =
      some [(0, 1), (0, 0), (1, 0), (2, 0), (2, 1)] :=
  ⟨rfl, rfl⟩

/-- C10: the only blocking test during neighbour expansion is the cell
character being `'#'`: the admission condition is exactly in-bounds,
not-`'#'`, not-visited; and concretely a cell carrying the undocumented
character `'X'` is entered and traversed. -/
theorem claim_C10_somente_cerquilha :
    (∀ (mapa : List (List Char)) (vis : List Cell) (rn cn : Int),
      condEntrada mapa vis rn cn ↔
        (InB mapa (rn, cn) ∧ getCell mapa rn cn ≠ '#' ∧ (rn, cn) ∉ vis)) ∧
    encontrar_melhor_rota [['E', 'X', 'S']] =
      some (some [(0, 0), (0, 1), (0, 2)], [], [['E', 'X', 'S']],
        [[(0, 0)], [(0, 0), (0, 1), (0, 2)]]) := by
  constructor
  · intro mapa vis rn cn
    unfold condEntrada InB
    tauto
  · rfl

/-! ## The final classification matrix -/

/-- The base matrix is well shaped. -/
theorem base_boa (mapa : List (List Char)) :
    MatrizBoa (classificarBase mapa) (linhasDe mapa) (colunasDe mapa) := by
  constructor
  · simp [classificarBase]
  · intro row hrow
    rw [classificarBase, List.mem_map] at hrow
    obtain ⟨r, -, rfl⟩ := hrow
    simp

/-- Reading the base matrix inside bounds gives the classified character. -/
theorem mget_base (mapa : List (List Char)) (r c : Nat)
    (hr : r < linhasDe mapa) (hc : c < colunasDe mapa) :
    mget (classificarBase mapa) r c =
      (if getCell mapa ↑r ↑c = '#' then 1
       else if getCell mapa ↑r ↑c = 'E' then 2
       else if getCell mapa ↑r ↑c = 'S' then 3
       else 0) := by
  have hrow : (classificarBase mapa).getD r [] =
      (List.range (colunasDe mapa)).map (fun (c2 : Nat) =>
        if getCell mapa ↑r ↑c2 = '#' then 1
        else if getCell mapa ↑r ↑c2 = 'E' then 2
        else if getCell mapa ↑r ↑c2 = 'S' then 3
        else 0) := by
    rw [classificarBase, List.getD_eq_getElem?_getD, List.getElem?_map,
      List.getElem?_range hr, Option.map_some', Option.getD_some]
  unfold mget
  rw [hrow, List.getD_eq_getElem?_getD, List.getElem?_map, List.getElem?_range hc,
    Option.map_some', Option.getD_some]

/-- `mset` keeps the matrix well shaped. -/
theorem mset_boa {m : List (List Nat)} {lin col : Nat} (hboa : MatrizBoa m lin col)
    (v : Cell) (val : Nat) : MatrizBoa (mset m v val) lin col := by
  obtain ⟨hlen, hrows⟩ := hboa
  rcases Nat.lt_or_ge v.1.toNat m.length with hlt | hge
  · constructor
    · rw [mset, List.length_set, hlen]
    · intro row hrow
      rcases List.mem_or_eq_of_mem_set hrow with h | rfl
      · exact hrows row h
      · rw [List.length_set, List.getD_eq_getElem?_getD, List.getElem?_eq_getElem hlt,
          Option.getD_some]
        exact hrows _ (List.getElem_mem hlt)
  · rw [mset, List.set_eq_of_length_le hge]
    exact ⟨hlen, hrows⟩

/-- Reading back the cell `mset` wrote, inside bounds. -/
theorem mget_mset_mesmo {m : List (List Nat)} {lin col : Nat}
    (hboa : MatrizBoa m lin col) {v : Cell} (hv : DentroDims v lin col) (val : Nat) :
    mget (mset m v val) v.1.toNat v.2.toNat = val := by
  obtain ⟨hlen, hrows⟩ := hboa
  obtain ⟨h1, h2, h3, h4⟩ := hv
  have hr : v.1.toNat < m.length := by omega
  have hcLen : (m.getD v.1.toNat []).length = col := by
    rw [List.getD_eq_getElem?_getD, List.getElem?_eq_getElem hr, Option.getD_some]
    exact hrows _ (List.getElem_mem hr)
  have hc : v.2.toNat < (m.getD v.1.toNat []).length := by omega
  have hrowEq : (mset m v val).getD v.1.toNat [] =
      (m.getD v.1.toNat []).set v.2.toNat val := by
    rw [mset, List.getD_eq_getElem?_getD, List.getElem?_set_self hr, Option.getD_some]
  unfold mget
  rw [hrowEq, List.getD_eq_getElem?_getD, List.getElem?_set_self hc, Option.getD_some]

/-- Reading any other cell after an `mset` is unchanged. -/
theorem mget_mset_outro {m : List (List Nat)} {v : Cell} {r c : Nat} (val : Nat)
    (h : v.1.toNat ≠ r ∨ v.2.toNat ≠ c) :
    mget (mset m v val) r c = mget m r c := by
  rcases Nat.lt_or_ge v.1.toNat m.length with hlt | hge
  · rcases Nat.decEq v.1.toNat r with hne | heq
    case isFalse =>
      have hrowEq : (mset m v val).getD r [] = m.getD r [] := by
        rw [mset, List.getD_eq_getElem?_getD, List.getElem?_set_ne hne,
          ← List.getD_eq_getElem?_getD]
      unfold mget
      rw [hrowEq]
    case isTrue =>
      have hcne : v.2.toNat ≠ c := by
        rcases h with h | h
        · exact absurd heq h
        · exact h
      have hrowEq : (mset m v val).getD r [] =
          (m.getD v.1.toNat []).set v.2.toNat val := by
        rw [mset, ← heq, List.getD_eq_getElem?_getD, List.getElem?_set_self hlt,
          Option.getD_some]
      unfold mget
      rw [hrowEq, List.getD_eq_getElem?_getD, List.getElem?_set_ne hcne,
        ← List.getD_eq_getElem?_getD, heq]
  · rw [mset, List.set_eq_of_length_le hge]

/-- Generic paint pass: fold `if P (current value) then write k` over a cell
list.  The final value at `(r, c)` is `k` exactly when the original value
satisfies `P` and some painted cell hits `(r, c)`. -/
theorem pintura_geral (P : Nat → Prop) [DecidablePred P] (k : Nat) (hPk : ¬ P k)
    (lin col : Nat) :
    ∀ (cells : List Cell) (m : List (List Nat)), MatrizBoa m lin col →
      (∀ v ∈ cells, DentroDims v lin col) → ∀ (r c : Nat),
      mget (cells.foldl (fun acc v =>
          if P (mget acc v.1.toNat v.2.toNat) then mset acc v k else acc) m) r c =
        (if P (mget m r c) ∧ ∃ v ∈ cells, v.1.toNat = r ∧ v.2.toNat = c then k
         else mget m r c) := by
  intro cells
  induction cells with
  | nil => intro m _ _ r c; simp
  | cons v vs ih =>
    intro m hboa hcells r c
    rw [List.foldl_cons]
    have hv := hcells v (List.mem_cons_self v vs)
    have hcells' : ∀ w ∈ vs, DentroDims w lin col :=
      fun w hw => hcells w (List.mem_cons_of_mem v hw)
    by_cases hP : P (mget m v.1.toNat v.2.toNat)
    · rw [if_pos hP, ih (mset m v k) (mset_boa hboa v k) hcells' r c]
      by_cases hhit : v.1.toNat = r ∧ v.2.toNat = c
      · obtain ⟨hvr, hvc⟩ := hhit
        have hk : mget (mset m v k) r c = k := by
          rw [← hvr, ← hvc]; exact mget_mset_mesmo hboa hv k
        have hP0 : P (mget m r c) := by rw [← hvr, ← hvc]; exact hP
        rw [hk, if_neg (fun hcon => hPk hcon.1),
          if_pos ⟨hP0, v, List.mem_cons_self v vs, hvr, hvc⟩]
      · have hne : v.1.toNat ≠ r ∨ v.2.toNat ≠ c := by tauto
        rw [mget_mset_outro k hne]
        have hiff : (∃ w ∈ v :: vs, w.1.toNat = r ∧ w.2.toNat = c) ↔
            (∃ w ∈ vs, w.1.toNat = r ∧ w.2.toNat = c) := by
          constructor
          · rintro ⟨w, hw, hwrc⟩
            rcases List.mem_cons.mp hw with rfl | hw'
            · exact absurd hwrc hhit
            · exact ⟨w, hw', hwrc⟩
          · rintro ⟨w, hw, hwrc⟩
            exact ⟨w, List.mem_cons_of_mem v hw, hwrc⟩
        simp only [hiff]
    · rw [if_neg hP, ih m hboa hcells' r c]
      by_cases hhit : v.1.toNat = r ∧ v.2.toNat = c
      · obtain ⟨hvr, hvc⟩ := hhit
        have hP0 : ¬ P (mget m r c) := by rw [← hvr, ← hvc]; exact hP
        rw [if_neg (fun hcon => hP0 hcon.1), if_neg (fun hcon => hP0 hcon.1)]
      · have hiff : (∃ w ∈ v :: vs, w.1.toNat = r ∧ w.2.toNat = c) ↔
            (∃ w ∈ vs, w.1.toNat = r ∧ w.2.toNat = c) := by
          constructor
          · rintro ⟨w, hw, hwrc⟩
            rcases List.mem_cons.mp hw with rfl | hw'
            · exact absurd hwrc hhit
            · exact ⟨w, hw', hwrc⟩
          · rintro ⟨w, hw, hwrc⟩
            exact ⟨w, List.mem_cons_of_mem v hw, hwrc⟩
        simp only [hiff]

/-- The discarded paint pass, characterised. -/
theorem pintar_descartadas_espec (m : List (List Nat)) (lin col : Nat)
    (hboa : MatrizBoa m lin col) (cells : List Cell)
    (hcells : ∀ v ∈ cells, DentroDims v lin col) (r c : Nat) :
    mget (pintarDescartadas m cells) r c =
      (if mget m r c = 0 ∧ ∃ v ∈ cells, v.1.toNat = r ∧ v.2.toNat = c then 5
       else mget m r c) :=
  pintura_geral (fun n => n = 0) 5 (by decide) lin col cells m hboa hcells r c

/-- The ideal-route paint pass, characterised. -/
theorem pintar_rota_espec (m : List (List Nat)) (lin col : Nat)
    (hboa : MatrizBoa m lin col) (cells : List Cell)
    (hcells : ∀ v ∈ cells, DentroDims v lin col) (r c : Nat) :
    mget (pintarRota m cells) r c =
      (if (mget m r c = 0 ∨ mget m r c = 5) ∧
          (∃ v ∈ cells, v.1.toNat = r ∧ v.2.toNat = c) then 4
       else mget m r c) :=
  pintura_geral (fun n => n = 0 ∨ n = 5) 4 (by decide) lin col cells m hboa hcells r c

/-- Any paint pass keeps the matrix well shaped. -/
theorem pintura_mantem_boa (P : Nat → Prop) [DecidablePred P] (k : Nat)
    {lin col : Nat} :
    ∀ (cells : List Cell) (m : List (List Nat)), MatrizBoa m lin col →
      MatrizBoa (cells.foldl (fun acc v =>
        if P (mget acc v.1.toNat v.2.toNat) then mset acc v k else acc) m) lin col := by
  intro cells
  induction cells with
  | nil => intro m hboa; exact hboa
  | cons v vs ih =>
    intro m hboa
    rw [List.foldl_cons]
    by_cases hP : P (mget m v.1.toNat v.2.toNat)
    · rw [if_pos hP]
      exact ih _ (mset_boa hboa v k)
    · rw [if_neg hP]
      exact ih m hboa

/-- For in-bounds cell lists, hitting `(r, c)` through `toNat` is plain
membership of the integer pair. -/
theorem alvo_iff_mem (cells : List Cell) (lin col : Nat)
    (hcells : ∀ v ∈ cells, DentroDims v lin col) (r c : Nat) :
    (∃ v ∈ cells, v.1.toNat = r ∧ v.2.toNat = c) ↔
      ((r : Int), (c : Int)) ∈ cells := by
  constructor
  · rintro ⟨v, hv, h1, h2⟩
    obtain ⟨hp1, -, hp2, -⟩ := hcells v hv
    have e1 : v.1 = (r : Int) := by rw [← h1, Int.toNat_of_nonneg hp1]
    have e2 : v.2 = (c : Int) := by rw [← h2, Int.toNat_of_nonneg hp2]
    have : v = ((r : Int), (c : Int)) := Prod.ext e1 e2
    rwa [this] at hv
  · intro hmem
    exact ⟨((r : Int), (c : Int)), hmem, by simp, by simp⟩

/-- C8: layering of the final classification matrix.  Inside bounds, a cell
keeps its Blocked/Start/Goal class (1, 2, 3); a Free cell (0) becomes 4 if
it lies on the optimal route — overriding any discarded paint — else 5 if
it was visited, else stays 0. -/
theorem claim_C8_camadas (mapa : List (List Char)) (rota : Option (List Cell))
    (vis : List Cell)
    (hrota : ∀ v ∈ rota.getD [], DentroDims v (linhasDe mapa) (colunasDe mapa))
    (hvis : ∀ v ∈ vis, DentroDims v (linhasDe mapa) (colunasDe mapa))
    (r c : Nat) (hr : r < linhasDe mapa) (hc : c < colunasDe mapa) :
    mget (plotar_mapa_final_matriz mapa rota vis) r c =
      (if mget (classificarBase mapa) r c = 0 then
        (if ((r : Int), (c : Int)) ∈ rota.getD [] then 4
         else if ((r : Int), (c : Int)) ∈ vis then 5
         else 0)
       else mget (classificarBase mapa) r c) := by
  have hboa := base_boa mapa
  have hboa2 := pintura_mantem_boa (fun n => n = 0) 5 vis (classificarBase mapa) hboa
  have h1 := pintar_descartadas_espec (classificarBase mapa) _ _ hboa vis hvis r c
  have h2 := pintar_rota_espec (pintarDescartadas (classificarBase mapa) vis) _ _
    hboa2 (rota.getD []) hrota r c
  have hbase5 : mget (classificarBase mapa) r c ≠ 5 := by
    rw [mget_base mapa r c hr hc]
    split_ifs <;> decide
  rw [plotar_mapa_final_matriz, h2, h1]
  simp only [alvo_iff_mem vis _ _ hvis r c, alvo_iff_mem (rota.getD []) _ _ hrota r c]
  by_cases hb : mget (classificarBase mapa) r c = 0 <;>
    by_cases hvm : ((r : Int), (c : Int)) ∈ vis <;>
    by_cases hrm : ((r : Int), (c : Int)) ∈ rota.getD [] <;>
    simp [hb, hvm, hrm, hbase5]

theorem claim_C8_witness :
    (∀ v ∈ (some [((0 : Int), (0 : Int)), (0, 1), (1, 1)] : Option (List Cell)).getD [],
      DentroDims v (linhasDe mapaC8) (colunasDe mapaC8)) ∧
    (∀ v ∈ ([(0, 0), (0, 1), (1, 0), (1, 1)] : List Cell),
      DentroDims v (linhasDe mapaC8) (colunasDe mapaC8)) ∧
    (0 : Nat) < linhasDe mapaC8 ∧ (1 : Nat) < colunasDe mapaC8 ∧
    mget (plotar_mapa_final_matriz mapaC8 (some [(0, 0), (0, 1), (1, 1)])
      [(0, 0), (0, 1), (1, 0), (1, 1)]) 0 1 = 4 :=
  ⟨by decide, by decide, by decide, by decide,
    (claim_C8_camadas mapaC8 (some [(0, 0), (0, 1), (1, 1)])
      [(0, 0), (0, 1), (1, 0), (1, 1)] (by decide) (by decide) 0 1 (by decide)
      (by decide)).trans (by decide)⟩

/-! ## The neighbour expansion -/

/-- The admission test, restated through `Livre`. -/
theorem cond_livre (mapa : List (List Char)) (vis : List Cell) (rn cn : Int) :
    condEntrada mapa vis rn cn ↔ Livre mapa (rn, cn) ∧ (rn, cn) ∉ vis := by
  unfold condEntrada Livre InB
  tauto

/-- The expansion only appends: to the visited list and to the queue, with
as many new visited cells as new queue entries. -/
theorem expandir_forma (mapa : List (List Char)) (r c : Int) (rota : List Cell) :
    ∀ (dirs : List (Int × Int)) (vis : List Cell) (fila : List (Cell × List Cell)),
      ∃ dv df, expandirCom dirs mapa r c rota vis fila = (vis ++ dv, fila ++ df) ∧
        dv.length = df.length := by
  intro dirs
  induction dirs with
  | nil => exact fun vis fila => ⟨[], [], by simp [expandirCom], rfl⟩
  | cons d ds ih =>
    intro vis fila
    rw [expandirCom, List.foldl_cons]
    by_cases hc : condEntrada mapa vis (r + d.1) (c + d.2)
    · simp only [passoVizinho, if_pos hc]
      obtain ⟨dv, df, heq, hlen⟩ := ih (vis ++ [(r + d.1, c + d.2)])
        (fila ++ [((r + d.1, c + d.2), rota ++ [(r + d.1, c + d.2)])])
      refine ⟨(r + d.1, c + d.2) :: dv, ((r + d.1, c + d.2), rota ++ [(r + d.1, c + d.2)]) :: df, ?_, by simp [hlen]⟩
      rw [expandirCom] at heq
      rw [heq]
      simp
    · simp only [passoVizinho, if_neg hc]
      exact ih vis fila

/-- Every queue entry after the expansion is an old entry or a one-step
extension of the dequeued route by a fresh free neighbour. -/
theorem expandir_entradas (mapa : List (List Char)) (r c : Int) (rota : List Cell) :
    ∀ (dirs : List (Int × Int)) (vis : List Cell) (fila : List (Cell × List Cell)),
      ∀ e ∈ (expandirCom dirs mapa r c rota vis fila).2,
        e ∈ fila ∨ ∃ v, e = (v, rota ++ [v]) ∧
          (∃ d ∈ dirs, v = (r + d.1, c + d.2)) ∧ Livre mapa v ∧ v ∉ vis ∧
          v ∈ (expandirCom dirs mapa r c rota vis fila).1 := by
  intro dirs
  induction dirs with
  | nil => intro vis fila e he; exact Or.inl he
  | cons d ds ih =>
    intro vis fila e he
    rw [expandirCom, List.foldl_cons] at he ⊢
    by_cases hc : condEntrada mapa vis (r + d.1) (c + d.2)
    · simp only [passoVizinho, if_pos hc] at he ⊢
      obtain ⟨hl, hnv⟩ := (cond_livre mapa vis _ _).mp hc
      have hpref : ∀ x ∈ vis ++ [(r + d.1, c + d.2)],
          x ∈ (expandirCom ds mapa r c rota (vis ++ [(r + d.1, c + d.2)])
            (fila ++ [((r + d.1, c + d.2), rota ++ [(r + d.1, c + d.2)])])).1 := by
        intro x hx
        obtain ⟨dv, df, heq, -⟩ := expandir_forma mapa r c rota ds _ _
        rw [heq]
        exact List.mem_append_left _ hx
      rcases ih _ _ e he with hin | ⟨v, hev, ⟨d', hd', hvd⟩, hlv, hnvis, hres⟩
      · rcases List.mem_append.mp hin with hin | hin
        · exact Or.inl hin
        · rcases List.mem_singleton.mp hin with rfl
          refine Or.inr ⟨(r + d.1, c + d.2), rfl, ⟨d, List.mem_cons_self d ds, rfl⟩,
            hl, hnv, ?_⟩
          exact hpref _ (List.mem_append_right _ (List.mem_singleton.mpr rfl))
      · refine Or.inr ⟨v, hev, ⟨d', List.mem_cons_of_mem d hd', hvd⟩, hlv, ?_, hres⟩
        intro hvv
        exact hnvis (List.mem_append_left _ hvv)
    · simp only [passoVizinho, if_neg hc] at he ⊢
      rcases ih vis fila e he with hin | ⟨v, hev, ⟨d', hd', hvd⟩, hlv, hnvis, hres⟩
      · exact Or.inl hin
      · exact Or.inr ⟨v, hev, ⟨d', List.mem_cons_of_mem d hd', hvd⟩, hlv, hnvis, hres⟩

/-- After the expansion, every free neighbour in a processed direction is
visited. -/
theorem expandir_completa (mapa : List (List Char)) (r c : Int) (rota : List Cell) :
    ∀ (dirs : List (Int × Int)) (vis : List Cell) (fila : List (Cell × List Cell)),
      ∀ d ∈ dirs, Livre mapa (r + d.1, c + d.2) →
        (r + d.1, c + d.2) ∈ (expandirCom dirs mapa r c rota vis fila).1 := by
  intro dirs
  induction dirs with
  | nil => intro vis fila d hd; exact absurd hd (List.not_mem_nil d)
  | cons d0 ds ih =>
    intro vis fila d hd hlv
    have hpref : ∀ (vis2 : List Cell) (fila2 : List (Cell × List Cell)),
        ∀ x ∈ vis2, x ∈ (expandirCom ds mapa r c rota vis2 fila2).1 := by
      intro vis2 fila2 x hx
      obtain ⟨dv, df, heq, -⟩ := expandir_forma mapa r c rota ds vis2 fila2
      rw [heq]
      exact List.mem_append_left _ hx
    rw [expandirCom, List.foldl_cons]
    rcases List.mem_cons.mp hd with rfl | hd'
    · by_cases hc : condEntrada mapa vis (r + d.1) (c + d.2)
      · simp only [passoVizinho, if_pos hc]
        exact hpref _ _ _ (List.mem_append_right _ (List.mem_singleton.mpr rfl))
      · simp only [passoVizinho, if_neg hc]
        have hvv : (r + d.1, c + d.2) ∈ vis := by
          by_contra hnv
          exact hc ((cond_livre mapa vis _ _).mpr ⟨hlv, hnv⟩)
        exact hpref _ _ _ hvv
    · by_cases hc : condEntrada mapa vis (r + d0.1) (c + d0.2)
      · simp only [passoVizinho, if_pos hc]
        exact ih _ _ d hd' hlv
      · simp only [passoVizinho, if_neg hc]
        exact ih _ _ d hd' hlv

/-- Every visited cell after the expansion was already visited or now has
its own queue entry. -/
theorem expandir_par (mapa : List (List Char)) (r c : Int) (rota : List Cell) :
    ∀ (dirs : List (Int × Int)) (vis : List Cell) (fila : List (Cell × List Cell)),
      ∀ v ∈ (expandirCom dirs mapa r c rota vis fila).1,
        v ∈ vis ∨ (v, rota ++ [v]) ∈ (expandirCom dirs mapa r c rota vis fila).2 := by
  intro dirs
  induction dirs with
  | nil => intro vis fila v hv; exact Or.inl hv
  | cons d ds ih =>
    intro vis fila v hv
    rw [expandirCom, List.foldl_cons] at hv ⊢
    by_cases hc : condEntrada mapa vis (r + d.1) (c + d.2)
    · simp only [passoVizinho, if_pos hc] at hv ⊢
      rcases ih _ _ v hv with hin | hin
      · rcases List.mem_append.mp hin with hin | hin
        · exact Or.inl hin
        · rcases List.mem_singleton.mp hin with rfl
          right
          obtain ⟨dv, df, heq, -⟩ := expandir_forma mapa r c rota ds
            (vis ++ [(r + d.1, c + d.2)])
            (fila ++ [((r + d.1, c + d.2), rota ++ [(r + d.1, c + d.2)])])
          rw [expandirCom] at heq
          rw [heq]
          exact List.mem_append_left _
            (List.mem_append_right _ (List.mem_singleton.mpr rfl))
      · exact Or.inr hin
    · simp only [passoVizinho, if_neg hc] at hv ⊢
      exact ih _ _ v hv

/-- The expansion keeps the visited list duplicate-free. -/
theorem expandir_nodup (mapa : List (List Char)) (r c : Int) (rota : List Cell) :
    ∀ (dirs : List (Int × Int)) (vis : List Cell) (fila : List (Cell × List Cell)),
      vis.Nodup → (expandirCom dirs mapa r c rota vis fila).1.Nodup := by
  intro dirs
  induction dirs with
  | nil => intro vis fila h; exact h
  | cons d ds ih =>
    intro vis fila h
    rw [expandirCom, List.foldl_cons]
    by_cases hc : condEntrada mapa vis (r + d.1) (c + d.2)
    · simp only [passoVizinho, if_pos hc]
      refine ih _ _ ?_
      rw [List.nodup_append]
      obtain ⟨-, hnv⟩ := (cond_livre mapa vis _ _).mp hc
      exact ⟨h, List.nodup_singleton _, by simpa using hnv⟩
    · simp only [passoVizinho, if_neg hc]
      exact ih _ _ h

/-- Every visited cell after the expansion was visited before or is a fresh
free neighbour. -/
theorem expandir_origem (mapa : List (List Char)) (r c : Int) (rota : List Cell) :
    ∀ (dirs : List (Int × Int)) (vis : List Cell) (fila : List (Cell × List Cell)),
      ∀ v ∈ (expandirCom dirs mapa r c rota vis fila).1,
        v ∈ vis ∨ (Livre mapa v ∧ ∃ d ∈ dirs, v = (r + d.1, c + d.2)) := by
  intro dirs
  induction dirs with
  | nil => intro vis fila v hv; exact Or.inl hv
  | cons d ds ih =>
    intro vis fila v hv
    rw [expandirCom, List.foldl_cons] at hv
    by_cases hc : condEntrada mapa vis (r + d.1) (c + d.2)
    · simp only [passoVizinho, if_pos hc] at hv
      rcases ih _ _ v hv with hin | ⟨hlv, d', hd', hvd⟩
      · rcases List.mem_append.mp hin with hin | hin
        · exact Or.inl hin
        · rcases List.mem_singleton.mp hin with rfl
          obtain ⟨hl, -⟩ := (cond_livre mapa vis _ _).mp hc
          exact Or.inr ⟨hl, d, List.mem_cons_self d ds, rfl⟩
      · exact Or.inr ⟨hlv, d', List.mem_cons_of_mem d hd', hvd⟩
    · simp only [passoVizinho, if_neg hc] at hv
      rcases ih _ _ v hv with hin | ⟨hlv, d', hd', hvd⟩
      · exact Or.inl hin
      · exact Or.inr ⟨hlv, d', List.mem_cons_of_mem d hd', hvd⟩

/-- The visited list only grows across an expansion. -/
theorem expandir_mono (mapa : List (List Char)) (r c : Int) (rota : List Cell)
    (dirs : List (Int × Int)) (vis : List Cell) (fila : List (Cell × List Cell)) :
    ∀ x ∈ vis, x ∈ (expandirCom dirs mapa r c rota vis fila).1 := by
  intro x hx
  obtain ⟨dv, df, heq, -⟩ := expandir_forma mapa r c rota dirs vis fila
  rw [heq]
  exact List.mem_append_left _ hx

/-- Old queue entries survive an expansion. -/
theorem expandir_fila_mono (mapa : List (List Char)) (r c : Int) (rota : List Cell)
    (dirs : List (Int × Int)) (vis : List Cell) (fila : List (Cell × List Cell)) :
    ∀ e ∈ fila, e ∈ (expandirCom dirs mapa r c rota vis fila).2 := by
  intro e he
  obtain ⟨dv, df, heq, -⟩ := expandir_forma mapa r c rota dirs vis fila
  rw [heq]
  exact List.mem_append_left _ he

/-! ## Snapshot bookkeeping (claim C5) -/

/-- Holding of the snapshot invariant along the loop: while no route is
fixed the snapshot count is exactly `⌈step/5⌉`; when the loop stops at the
destination it gains at most one extra snapshot; and the snapshots always
form an inclusion chain. -/
theorem loop_snaps (mapa : List (List Char)) (destino : Cell) :
    ∀ (fuel : Nat) (s : BFSState), s.rota = none →
      s.snaps.length = (s.step + 4) / 5 →
      List.Pairwise (fun a b : List Cell => a ⊆ b) s.snaps →
      (∀ t ∈ s.snaps, t ⊆ s.visitados) →
      (((loopBFSCom direcoes mapa destino fuel s).rota = none ∧
        (loopBFSCom direcoes mapa destino fuel s).snaps.length =
          ((loopBFSCom direcoes mapa destino fuel s).step + 4) / 5) ∨
       ((loopBFSCom direcoes mapa destino fuel s).rota.isSome = true ∧
        ((loopBFSCom direcoes mapa destino fuel s).snaps.length =
            ((loopBFSCom direcoes mapa destino fuel s).step + 4) / 5 ∨
         (loopBFSCom direcoes mapa destino fuel s).snaps.length =
            ((loopBFSCom direcoes mapa destino fuel s).step + 4) / 5 + 1))) ∧
      List.Pairwise (fun a b : List Cell => a ⊆ b)
        (loopBFSCom direcoes mapa destino fuel s).snaps := by
  intro fuel
  induction fuel with
  | zero =>
    intro s h1 h2 h3 h4
    exact ⟨Or.inl ⟨h1, h2⟩, h3⟩
  | succ fuel ih =>
    intro s h1 h2 h3 h4
    match hf : s.fila with
    | [] =>
      simp only [loopBFSCom, hf]
      exact ⟨Or.inl ⟨h1, h2⟩, h3⟩
    | (cel, rota) :: resto =>
      by_cases hd : cel = destino
      · have hcond : s.step % 5 = 0 ∨ cel = destino := Or.inr hd
        simp only [loopBFSCom, hf, if_pos hcond, if_pos hd]
        have hdup : ∃ t ∈ s.snaps ++ [s.visitados], MesmoConjunto t s.visitados :=
          ⟨s.visitados, List.mem_append_right _ (List.mem_singleton.mpr rfl),
            fun x hx => hx, fun x hx => hx⟩
        rw [if_pos hdup]
        constructor
        · right
          refine ⟨rfl, ?_⟩
          simp only [List.length_append, List.length_singleton, h2]
          omega
        · rw [List.pairwise_append]
          refine ⟨h3, List.pairwise_singleton _ _, ?_⟩
          intro a ha b hb
          rw [List.mem_singleton] at hb
          subst hb
          exact h4 a ha
      · have hcond : (s.step % 5 = 0 ∨ cel = destino) ↔ s.step % 5 = 0 := by
          constructor
          · rintro (h | h)
            · exact h
            · exact absurd h hd
          · exact Or.inl
        simp only [loopBFSCom, hf, if_neg hd]
        by_cases h5 : s.step % 5 = 0
        · rw [if_pos (hcond.mpr h5)]
          refine ih _ h1 ?_ ?_ ?_
          · simp only [List.length_append, List.length_singleton, h2]
            omega
          · rw [List.pairwise_append]
            refine ⟨h3, List.pairwise_singleton _ _, ?_⟩
            intro a ha b hb
            rw [List.mem_singleton] at hb
            subst hb
            exact h4 a ha
          · intro t ht
            rcases List.mem_append.mp ht with ht | ht
            · intro x hx
              exact expandir_mono mapa cel.1 cel.2 rota direcoes s.visitados resto x
                (h4 t ht hx)
            · rw [List.mem_singleton] at ht
              subst ht
              intro x hx
              exact expandir_mono mapa cel.1 cel.2 rota direcoes s.visitados resto x hx
        · rw [if_neg (fun hcc => h5 (hcond.mp hcc))]
          refine ih _ h1 ?_ h3 ?_
          · show s.snaps.length = (s.step + 1 + 4) / 5
            rw [h2]
            omega
          · intro t ht x hx
            exact expandir_mono mapa cel.1 cel.2 rota direcoes s.visitados resto x
              (h4 t ht hx)

/-- C5: for every search run, the number of snapshots is `⌈dequeues/5⌉`,
plus at most one extra — the extra only when the goal was reached — and the
snapshots form a non-decreasing chain under set inclusion. -/
theorem claim_C5_instantaneos (mapa : List (List Char)) (partida destino : Cell) :
    ((buscar mapa partida destino).snaps.length =
        ((buscar mapa partida destino).step + 4) / 5 ∨
      ((buscar mapa partida destino).rota.isSome = true ∧
        (buscar mapa partida destino).snaps.length =
          ((buscar mapa partida destino).step + 4) / 5 + 1)) ∧
    List.Pairwise (fun a b : List Cell => a ⊆ b)
      (buscar mapa partida destino).snaps := by
  have h := loop_snaps mapa destino (linhasDe mapa * colunasDe mapa + 1)
    (estadoInicial partida) rfl (by simp [estadoInicial]) List.Pairwise.nil (by simp [estadoInicial])
  rw [buscar]
  obtain ⟨hcount, hchain⟩ := h
  refine ⟨?_, hchain⟩
  rcases hcount with ⟨-, hc⟩ | ⟨hsome, hc | hc⟩
  · exact Or.inl hc
  · exact Or.inl hc
  · exact Or.inr ⟨hsome, hc⟩

/-! ## The discarded-route filter (claim C4) -/

/-- Queue routes are never empty, hence neither is a found route. -/
theorem loop_rota_nao_vazia (mapa : List (List Char)) (destino : Cell) :
    ∀ (fuel : Nat) (s : BFSState), (∀ e ∈ s.fila, e.2 ≠ []) → s.rota = none →
      ∀ ri, (loopBFSCom direcoes mapa destino fuel s).rota = some ri → ri ≠ [] := by
  intro fuel
  induction fuel with
  | zero =>
    intro s hfila hrota ri hri
    rw [loopBFSCom, hrota] at hri
    exact absurd hri (by simp)
  | succ fuel ih =>
    intro s hfila hrota ri hri
    match hf : s.fila with
    | [] =>
      have hid : loopBFSCom direcoes mapa destino (fuel + 1) s = s := by
        rw [loopBFSCom, hf]
      rw [hid, hrota] at hri
      exact absurd hri (by simp)
    | (cel, rota) :: resto =>
      by_cases hd : cel = destino
      · rw [loopBFSCom, hf] at hri
        simp only [if_pos hd] at hri
        have : some rota = some ri := hri
        have hne : rota ≠ [] := hfila (cel, rota) (hf ▸ List.mem_cons_self _ _)
        rw [Option.some.injEq] at this
        exact this ▸ hne
      · rw [loopBFSCom, hf] at hri
        simp only [if_neg hd] at hri
        refine ih _ ?_ ?_ ri hri
        · intro e he
          rcases expandir_entradas mapa cel.1 cel.2 rota direcoes s.visitados resto e he with
            hin | ⟨v, hev, -, -, -, -⟩
          · exact hfila e (hf ▸ List.mem_cons_of_mem _ hin)
          · rw [hev]
            simp
        · exact hrota

/-- A route found by `buscar` is nonempty. -/
theorem buscar_rota_nao_vazia (mapa : List (List Char)) (partida destino : Cell)
    (ri : List Cell) (h : (buscar mapa partida destino).rota = some ri) : ri ≠ [] := by
  refine loop_rota_nao_vazia mapa destino _ (estadoInicial partida) ?_ rfl ri h
  intro e he
  rw [estadoInicial] at he
  rcases List.mem_singleton.mp he with rfl
  simp

/-- C4: the discarded list is exactly the explored segments that contain a
coordinate outside the optimal route (and are not the optimal route itself
verbatim) when a route was found, and exactly the explored segments of
length above one otherwise; hence each discarded entry has a coordinate
absent from the optimal route. -/
theorem claim_C4_descartadas (mapa : List (List Char)) (partida destino : Cell) :
    (∀ ri, (buscar mapa partida destino).rota = some ri →
      (∀ seg, seg ∈ descartadasOf (buscar mapa partida destino).rota
          (buscar mapa partida destino).todos ↔
        (seg ∈ (buscar mapa partida destino).todos ∧
          (∃ pt ∈ seg, pt ∉ ri) ∧ seg ≠ ri)) ∧
      (∀ seg ∈ descartadasOf (buscar mapa partida destino).rota
          (buscar mapa partida destino).todos, ∃ pt ∈ seg, pt ∉ ri)) ∧
    ((buscar mapa partida destino).rota = none →
      ∀ seg, seg ∈ descartadasOf (buscar mapa partida destino).rota
          (buscar mapa partida destino).todos ↔
        (seg ∈ (buscar mapa partida destino).todos ∧ 1 < seg.length)) := by
  constructor
  · intro ri hri
    have hne : ri ≠ [] := buscar_rota_nao_vazia mapa partida destino ri hri
    match hri2 : ri with
    | [] => exact absurd rfl hne
    | p :: ri' =>
      have hiff : ∀ seg, seg ∈ descartadasOf (buscar mapa partida destino).rota
          (buscar mapa partida destino).todos ↔
          (seg ∈ (buscar mapa partida destino).todos ∧
            (∃ pt ∈ seg, pt ∉ p :: ri') ∧ seg ≠ p :: ri') := by
        intro seg
        rw [hri, descartadasOf, List.mem_filter, Bool.and_eq_true,
          decide_eq_true_eq, decide_eq_true_eq]
      refine ⟨hiff, ?_⟩
      intro seg hseg
      exact ((hiff seg).mp hseg).2.1
  · intro hri seg
    rw [hri, descartadasOf, List.mem_filter, decide_eq_true_eq]
    intro p ri h
    exact absurd h (by simp)

theorem claim_C4_witness :
    (buscar mapa3 (0, 0) (2, 2)).rota =
      some [(0, 0), (1, 0), (2, 0), (2, 1), (2, 2)] ∧
    ∀ seg ∈ descartadasOf (buscar mapa3 (0, 0) (2, 2)).rota
        (buscar mapa3 (0, 0) (2, 2)).todos,
      ∃ pt ∈ seg, pt ∉ ([(0, 0), (1, 0), (2, 0), (2, 1), (2, 2)] : List Cell) :=
  ⟨rfl, ((claim_C4_descartadas mapa3 (0, 0) (2, 2)).1 _ rfl).2⟩

/-! ## Reaching the optimal-route and validity claims (C1, C6) -/

/-- The expansion result split into old queue and fresh entries, with the
fresh entries characterised. -/
theorem expandir_novas (mapa : List (List Char)) (r c : Int) (rota : List Cell) :
    ∀ (dirs : List (Int × Int)) (vis : List Cell) (fila : List (Cell × List Cell)),
      ∃ df, (expandirCom dirs mapa r c rota vis fila).2 = fila ++ df ∧
        ∀ e ∈ df, ∃ v, e = (v, rota ++ [v]) ∧
          (∃ d ∈ dirs, v = (r + d.1, c + d.2)) ∧ Livre mapa v ∧ v ∉ vis ∧
          v ∈ (expandirCom dirs mapa r c rota vis fila).1 := by
  intro dirs
  induction dirs with
  | nil => exact fun vis fila => ⟨[], by simp [expandirCom], by simp⟩
  | cons d ds ih =>
    intro vis fila
    rw [expandirCom, List.foldl_cons]
    by_cases hc : condEntrada mapa vis (r + d.1) (c + d.2)
    · simp only [passoVizinho, if_pos hc]
      obtain ⟨hl, hnv⟩ := (cond_livre mapa vis _ _).mp hc
      obtain ⟨df, heq, hdf⟩ := ih (vis ++ [(r + d.1, c + d.2)])
        (fila ++ [((r + d.1, c + d.2), rota ++ [(r + d.1, c + d.2)])])
      rw [expandirCom] at heq hdf
      refine ⟨((r + d.1, c + d.2), rota ++ [(r + d.1, c + d.2)]) :: df, ?_, ?_⟩
      · rw [heq, List.append_assoc]
        rfl
      · intro e he
        rcases List.mem_cons.mp he with rfl | he'
        · refine ⟨(r + d.1, c + d.2), rfl, ⟨d, List.mem_cons_self d ds, rfl⟩, hl, hnv, ?_⟩
          exact expandir_mono mapa r c rota ds _ _ _
            (List.mem_append_right _ (List.mem_singleton.mpr rfl))
        · obtain ⟨v, hev, ⟨d', hd', hvd⟩, hlv, hnvis, hres⟩ := hdf e he'
          refine ⟨v, hev, ⟨d', List.mem_cons_of_mem d hd', hvd⟩, hlv, ?_, hres⟩
          intro hvv
          exact hnvis (List.mem_append_left _ hvv)
    · simp only [passoVizinho, if_neg hc]
      obtain ⟨df, heq, hdf⟩ := ih vis fila
      refine ⟨df, heq, ?_⟩
      intro e he
      obtain ⟨v, hev, ⟨d', hd', hvd⟩, hlv, hnvis, hres⟩ := hdf e he
      exact ⟨v, hev, ⟨d', List.mem_cons_of_mem d hd', hvd⟩, hlv, hnvis, hres⟩

/-- Peeling the last step off a route. -/
theorem caminho_decompor (mapa : List (List Char)) (partida v : Cell)
    (q : List Cell) (hq : CaminhoAte mapa partida v q) (n : Nat)
    (hn : q.length = n + 2) :
    ∃ u q', q = q' ++ [v] ∧ CaminhoAte mapa partida u q' ∧ Passo mapa u v ∧
      q'.length = n + 1 := by
  obtain ⟨hhead, hchain, hlast⟩ := hq
  have hqne : q ≠ [] := by
    intro he
    rw [he] at hn
    simp at hn
  have hsplit : q.dropLast ++ [q.getLast hqne] = q := List.dropLast_append_getLast hqne
  have hlastv : q.getLast hqne = v := by
    rw [List.getLast?_eq_getLast q hqne, Option.some.injEq] at hlast
    exact hlast
  have hq'len : q.dropLast.length = n + 1 := by
    rw [List.length_dropLast, hn]
    omega
  have hq'ne : q.dropLast ≠ [] := by
    intro he
    rw [he] at hq'len
    simp at hq'len
  refine ⟨q.dropLast.getLast hq'ne, q.dropLast, by rw [← hlastv, hsplit], ?_, ?_, hq'len⟩
  · have hchain2 : List.Chain' (Passo mapa) (q.dropLast ++ [v]) := by
      rw [← hlastv, hsplit]
      exact hchain
    have hhead2 : (q.dropLast ++ [v]).head? = some partida := by
      rw [← hlastv, hsplit]
      exact hhead
    refine ⟨?_, (List.chain'_append.mp hchain2).1,
      List.getLast?_eq_getLast _ hq'ne⟩
    rw [List.head?_append] at hhead2
    cases hh : q.dropLast.head? with
    | none => exact absurd (List.head?_eq_none_iff.mp hh) hq'ne
    | some x =>
      rw [hh, Option.or_some] at hhead2
      exact hhead2
  · have hchain2 : List.Chain' (Passo mapa) (q.dropLast ++ [v]) := by
      rw [← hlastv, hsplit]
      exact hchain
    have := (List.chain'_append.mp hchain2).2.2
    exact this _ (List.getLast?_eq_getLast _ hq'ne) v rfl

/-- Routes stay inside any `Passo`-closed collection containing their head. -/
theorem cadeia_fechada (mapa : List (List Char)) (S : Cell → Prop)
    (hfecho : ∀ u, S u → ∀ v, Passo mapa u v → S v) :
    ∀ (q : List Cell) (a : Cell), q.head? = some a →
      List.Chain' (Passo mapa) q → S a → ∀ x ∈ q, S x := by
  intro q
  induction q with
  | nil => intro a ha; simp at ha
  | cons b t ihq =>
    intro a ha hchain hmem x hx
    rw [List.head?_cons, Option.some.injEq] at ha
    subst ha
    rcases List.mem_cons.mp hx with rfl | hx'
    · exact hmem
    · cases t with
      | nil => simp at hx'
      | cons b2 t2 =>
        rw [List.chain'_cons] at hchain
        exact ihq b2 rfl hchain.2 (hfecho _ hmem _ hchain.1) x hx'

/-- If the queue is exhausted without fixing a route, the destination is
unreachable. -/
theorem busca_exaustao (mapa : List (List Char)) (partida destino : Cell)
    (s : BFSState) (hinv : InvBusca mapa partida destino s) (hfe : s.fila = [])
    (hr : s.rota = none) (hreach : ∃ q, CaminhoAte mapa partida destino q) :
    False := by
  obtain ⟨q, hq⟩ := hreach
  have hclosed : ∀ u, u ∈ s.visitados → ∀ v, Passo mapa u v → v ∈ s.visitados := by
    intro u hu v hp
    rcases hinv.fecho u hu with ⟨p, hpf⟩ | hcl
    · rw [hfe] at hpf
      exact absurd hpf (List.not_mem_nil _)
    · exact hcl v hp
  have hdest : destino ∈ s.visitados :=
    cadeia_fechada mapa (· ∈ s.visitados) hclosed q partida hq.1 hq.2.1
      hinv.visPartida destino (mem_de_getLast? hq.2.2)
  obtain ⟨p, hpf⟩ := hinv.metaNaFila hr hdest
  rw [hfe] at hpf
  exact absurd hpf (List.not_mem_nil _)

/-- A duplicate-free list of in-bounds cells has at most `linhas * colunas`
elements. -/
theorem nodup_inb_limite (mapa : List (List Char)) (l : List Cell)
    (hnd : l.Nodup) (hin : ∀ v ∈ l, InB mapa v) :
    l.length ≤ linhasDe mapa * colunasDe mapa := by
  classical
  have hsub : l.toFinset ⊆
      (Finset.Ico (0 : Int) (linhasDe mapa)) ×ˢ
        (Finset.Ico (0 : Int) (colunasDe mapa)) := by
    intro v hv
    rw [List.mem_toFinset] at hv
    obtain ⟨h1, h2, h3, h4⟩ := hin v hv
    rw [Finset.mem_product, Finset.mem_Ico, Finset.mem_Ico]
    exact ⟨⟨h1, h2⟩, h3, h4⟩
  have hcard := Finset.card_le_card hsub
  rw [List.toFinset_card_of_nodup hnd, Finset.card_product, Int.card_Ico,
    Int.card_Ico] at hcard
  simpa using hcard

/-- One non-final loop iteration preserves the search invariant. -/
theorem inv_preservada (mapa : List (List Char)) (partida destino : Cell)
    (s : BFSState) (cel : Cell) (rota : List Cell)
    (resto : List (Cell × List Cell)) (hf : s.fila = (cel, rota) :: resto)
    (hd : cel ≠ destino) (hinv : InvBusca mapa partida destino s) :
    InvBusca mapa partida destino
      { fila := (expandirCom direcoes mapa cel.1 cel.2 rota s.visitados resto).2,
        visitados := (expandirCom direcoes mapa cel.1 cel.2 rota s.visitados resto).1,
        todos := s.todos ++ [rota],
        snaps := if s.step % 5 = 0 ∨ cel = destino then s.snaps ++ [s.visitados]
          else s.snaps,
        step := s.step + 1, rota := s.rota } := by
  have hhead : (cel, rota) ∈ s.fila := hf ▸ List.mem_cons_self _ _
  have hent := hinv.entradas (cel, rota) hhead
  have hcurta := hinv.curtas (cel, rota) hhead
  have hrne : rota ≠ [] := by
    intro h0
    have := hent.cabeca
    rw [h0] at this
    simp at this
  obtain ⟨L, A, B, hAB, hA, hB, hAe, hL1, hInv5⟩ := hinv.camadas
  have hAne : A ≠ [] := by
    intro h0
    have := hAe h0
    rw [hf] at this
    exact List.cons_ne_nil _ _ this
  obtain ⟨a0, A2, rfl⟩ := List.exists_cons_of_ne_nil hAne
  rw [hf, List.cons_append] at hAB
  have ha0 : (cel, rota) = a0 := by
    injection hAB with h1 h2
  have hresto : resto = A2 ++ B := by
    injection hAB with h1 h2
  have hLrota : rota.length = L := by
    have := hA a0 (List.mem_cons_self _ _)
    rw [← ha0] at this
    exact this
  obtain ⟨df, hdfEq, hdfChar⟩ :=
    expandir_novas mapa cel.1 cel.2 rota direcoes s.visitados resto
  refine ⟨?_, ?_, ?_, ?_, ?_, ?_, ?_, ?_⟩
  · exact expandir_nodup mapa cel.1 cel.2 rota direcoes s.visitados resto
      hinv.visNodup
  · intro v hv
    rcases expandir_origem mapa cel.1 cel.2 rota direcoes s.visitados resto v hv with
      hvv | ⟨hlv, -⟩
    · exact hinv.visInB v hvv
    · exact hlv.1
  · exact expandir_mono mapa cel.1 cel.2 rota direcoes s.visitados resto partida
      hinv.visPartida
  · -- entradas
    intro e he
    rcases expandir_entradas mapa cel.1 cel.2 rota direcoes s.visitados resto e he with
      hin | ⟨v, hev, hdirs, hlv, hnvis, hres⟩
    · have hold := hinv.entradas e (hf ▸ List.mem_cons_of_mem _ hin)
      exact ⟨hold.cabeca, hold.cadeia, hold.ultimo, hold.semRep,
        fun x hx => expandir_mono mapa cel.1 cel.2 rota direcoes s.visitados resto x
          (hold.dentro x hx)⟩
    · subst hev
      refine ⟨?_, ?_, ?_, ?_, ?_⟩
      · show (rota ++ [v]).head? = some partida
        rw [List.head?_append, hent.cabeca, Option.or_some]
      · show List.Chain' (Passo mapa) (rota ++ [v])
        rw [List.chain'_append]
        refine ⟨hent.cadeia, List.chain'_singleton v, ?_⟩
        intro x hx y hy
        rw [Option.mem_def, hent.ultimo, Option.some.injEq] at hx
        rw [Option.mem_def, List.head?_cons, Option.some.injEq] at hy
        subst hx
        subst hy
        exact ⟨hdirs, hlv⟩
      · show (rota ++ [v]).getLast? = some v
        exact List.getLast?_concat rota
      · show (rota ++ [v]).Nodup
        rw [List.nodup_append]
        refine ⟨hent.semRep, List.nodup_singleton v, ?_⟩
        intro x hx hxv
        rw [List.mem_singleton] at hxv
        subst hxv
        exact hnvis (hent.dentro x hx)
      · show ∀ x ∈ rota ++ [v], x ∈ _
        intro x hx
        rcases List.mem_append.mp hx with hx | hx
        · exact expandir_mono mapa cel.1 cel.2 rota direcoes s.visitados resto x
            (hent.dentro x hx)
        · rw [List.mem_singleton] at hx
          subst hx
          exact hres
  · -- curtas
    intro e he
    rcases expandir_entradas mapa cel.1 cel.2 rota direcoes s.visitados resto e he with
      hin | ⟨v, hev, hdirs, hlv, hnvis, hres⟩
    · exact hinv.curtas e (hf ▸ List.mem_cons_of_mem _ hin)
    · subst hev
      intro q hq
      by_contra hcon
      push_neg at hcon
      have hle : q.length ≤ L := by
        rw [List.length_append, List.length_singleton, hLrota] at hcon
        omega
      exact hnvis (hInv5 v q hq hle)
  · -- camadas
    have hdfLen : ∀ e ∈ df, e.2.length = L + 1 := by
      intro e he
      obtain ⟨v, hev, -, -, -, -⟩ := hdfChar e he
      subst hev
      rw [List.length_append, List.length_singleton, hLrota]
    by_cases hA2 : A2 = []
    · -- the whole length-L layer is done: completeness upgrades to L + 1
      subst hA2
      refine ⟨L + 1, B ++ df, [], ?_, ?_, ?_, ?_, ?_, ?_⟩
      · show (expandirCom direcoes mapa cel.1 cel.2 rota s.visitados resto).2 = _
        rw [hdfEq, hresto, List.nil_append, List.append_nil]
      · intro e he
        rcases List.mem_append.mp he with he | he
        · exact hB e he
        · exact hdfLen e he
      · intro e he
        exact absurd he (List.not_mem_nil e)
      · intro h0
        show (expandirCom direcoes mapa cel.1 cel.2 rota s.visitados resto).2 = []
        rw [hdfEq, hresto, List.nil_append, ← h0]
      · omega
      · -- completeness at L + 1
        intro v q hq hlen
        rcases le_or_lt q.length L with hle | hgt
        · exact expandir_mono mapa cel.1 cel.2 rota direcoes s.visitados resto v
            (hInv5 v q hq hle)
        · have hqlen : q.length = L + 1 := by omega
          have hqlen2 : q.length = (L - 1) + 2 := by omega
          obtain ⟨u, q', hqsplit, hq', hpass, hq'len⟩ :=
            caminho_decompor mapa partida v q hq (L - 1) hqlen2
          have hq'L : q'.length = L := by omega
          have hu : u ∈ s.visitados := hInv5 u q' hq' (le_of_eq hq'L)
          rcases hinv.fecho u hu with ⟨p, hp⟩ | hcl
          · rw [hf] at hp
            rcases List.mem_cons.mp hp with hup | hup
            · have hucel : u = cel := by
                injection hup with h1 h2
              obtain ⟨⟨dd, hdd, hvd⟩, hlvv⟩ := hpass
              rw [hucel] at hvd
              rw [hvd]
              refine expandir_completa mapa cel.1 cel.2 rota direcoes s.visitados
                resto dd hdd ?_
              rw [← hvd]
              exact hlvv
            · rw [hresto, List.nil_append] at hup
              have hpL : p.length = L + 1 := hB (u, p) hup
              have hcu : p.length ≤ q'.length :=
                hinv.curtas (u, p) (hf ▸ List.mem_cons_of_mem _
                  (hresto ▸ hup)) q' hq'
              omega
          · exact expandir_mono mapa cel.1 cel.2 rota direcoes s.visitados resto v
              (hcl v hpass)
    · -- still entries of length L in front
      refine ⟨L, A2, B ++ df, ?_, ?_, ?_, ?_, hL1, ?_⟩
      · show (expandirCom direcoes mapa cel.1 cel.2 rota s.visitados resto).2 = _
        rw [hdfEq, hresto, List.append_assoc]
      · intro e he
        exact hA e (List.mem_cons_of_mem _ he)
      · intro e he
        rcases List.mem_append.mp he with he | he
        · exact hB e he
        · exact hdfLen e he
      · intro h0
        exact absurd h0 hA2
      · intro v q hq hlen
        exact expandir_mono mapa cel.1 cel.2 rota direcoes s.visitados resto v
          (hInv5 v q hq hlen)
  · -- fecho
    intro u hu
    rcases expandir_par mapa cel.1 cel.2 rota direcoes s.visitados resto u hu with
      huv | hupar
    · rcases hinv.fecho u huv with ⟨p, hp⟩ | hcl
      · rw [hf] at hp
        rcases List.mem_cons.mp hp with hup | hup
        · right
          intro v hpass
          have hucel : u = cel := by
            injection hup with h1 h2
          obtain ⟨⟨dd, hdd, hvd⟩, hlvv⟩ := hpass
          rw [hucel] at hvd
          rw [hvd]
          refine expandir_completa mapa cel.1 cel.2 rota direcoes s.visitados
            resto dd hdd ?_
          rw [← hvd]
          exact hlvv
        · exact Or.inl ⟨p, expandir_fila_mono mapa cel.1 cel.2 rota direcoes
            s.visitados resto (u, p) hup⟩
      · right
        intro v hpass
        exact expandir_mono mapa cel.1 cel.2 rota direcoes s.visitados resto v
          (hcl v hpass)
    · exact Or.inl ⟨rota ++ [u], hupar⟩
  · -- metaNaFila
    intro hrota hdest
    rcases expandir_par mapa cel.1 cel.2 rota direcoes s.visitados resto destino
      hdest with hdv | hdpar
    · obtain ⟨p, hp⟩ := hinv.metaNaFila hrota hdv
      rw [hf] at hp
      rcases List.mem_cons.mp hp with hup | hup
      · exfalso
        apply hd
        have : destino = cel := by
          injection hup with h1 h2
        exact this.symm
      · exact ⟨p, expandir_fila_mono mapa cel.1 cel.2 rota direcoes s.visitados
          resto (destino, p) hup⟩
    · exact ⟨rota ++ [destino], hdpar⟩

/-- Running the loop from an invariant state with enough fuel: any found
route is a valid shortest route, and if no route is found the queue is
exhausted with the invariant intact. -/
theorem busca_loop_correta (mapa : List (List Char)) (partida destino : Cell) :
    ∀ (fuel : Nat) (s : BFSState), InvBusca mapa partida destino s →
      s.rota = none → medida mapa s ≤ fuel →
      (∀ p, (loopBFSCom direcoes mapa destino fuel s).rota = some p →
        p.head? = some partida ∧ List.Chain' (Passo mapa) p ∧
        p.getLast? = some destino ∧ p.Nodup ∧
        ∀ q, CaminhoAte mapa partida destino q → p.length ≤ q.length) ∧
      ((loopBFSCom direcoes mapa destino fuel s).rota = none →
        (loopBFSCom direcoes mapa destino fuel s).fila = [] ∧
        InvBusca mapa partida destino (loopBFSCom direcoes mapa destino fuel s)) := by
  intro fuel
  induction fuel with
  | zero =>
    intro s hinv hrota hmed
    have hfe : s.fila = [] := by
      rw [medida] at hmed
      have : s.fila.length = 0 := by omega
      exact List.length_eq_zero.mp this
    rw [loopBFSCom]
    constructor
    · intro p hp
      rw [hrota] at hp
      exact absurd hp (by simp)
    · intro _
      exact ⟨hfe, hinv⟩
  | succ fuel ih =>
    intro s hinv hrota hmed
    match hf : s.fila with
    | [] =>
      have hid : loopBFSCom direcoes mapa destino (fuel + 1) s = s := by
        rw [loopBFSCom, hf]
      rw [hid]
      constructor
      · intro p hp
        rw [hrota] at hp
        exact absurd hp (by simp)
      · intro _
        exact ⟨hf, hinv⟩
    | (cel, rota) :: resto =>
      by_cases hd : cel = destino
      · have hstep : loopBFSCom direcoes mapa destino (fuel + 1) s =
            { fila := resto, visitados := s.visitados,
              todos := s.todos ++ [rota],
              snaps := if ∃ t ∈ (if s.step % 5 = 0 ∨ cel = destino then
                    s.snaps ++ [s.visitados] else s.snaps),
                  MesmoConjunto t s.visitados then
                  (if s.step % 5 = 0 ∨ cel = destino then
                    s.snaps ++ [s.visitados] else s.snaps)
                else (if s.step % 5 = 0 ∨ cel = destino then
                    s.snaps ++ [s.visitados] else s.snaps) ++ [s.visitados],
              step := s.step + 1, rota := some rota } := by
          rw [loopBFSCom, hf]
          simp only [if_pos hd]
        rw [hstep]
        constructor
        · intro p hp
          have hpr : rota = p := by
            have h2 : some rota = some p := hp
            rw [Option.some.injEq] at h2
            exact h2
          subst hpr
          have hhead : (cel, rota) ∈ s.fila := hf ▸ List.mem_cons_self _ _
          have hent := hinv.entradas (cel, rota) hhead
          have hcurta := hinv.curtas (cel, rota) hhead
          refine ⟨hent.cabeca, hent.cadeia, ?_, hent.semRep, ?_⟩
          · rw [← hd]
            exact hent.ultimo
          · intro q hq
            refine hcurta q ?_
            rw [hd]
            exact hq
        · intro hnone
          exact absurd hnone (by simp)
      · have hstep : loopBFSCom direcoes mapa destino (fuel + 1) s =
            loopBFSCom direcoes mapa destino fuel
              { fila := (expandirCom direcoes mapa cel.1 cel.2 rota
                  s.visitados resto).2,
                visitados := (expandirCom direcoes mapa cel.1 cel.2 rota
                  s.visitados resto).1,
                todos := s.todos ++ [rota],
                snaps := if s.step % 5 = 0 ∨ cel = destino then
                  s.snaps ++ [s.visitados] else s.snaps,
                step := s.step + 1, rota := s.rota } := by
          rw [loopBFSCom, hf]
          simp only [if_neg hd]
        have hinv2 := inv_preservada mapa partida destino s cel rota resto hf hd hinv
        have hmed2 : medida mapa
            { fila := (expandirCom direcoes mapa cel.1 cel.2 rota
                s.visitados resto).2,
              visitados := (expandirCom direcoes mapa cel.1 cel.2 rota
                s.visitados resto).1,
              todos := s.todos ++ [rota],
              snaps := if s.step % 5 = 0 ∨ cel = destino then
                s.snaps ++ [s.visitados] else s.snaps,
              step := s.step + 1, rota := s.rota } ≤ fuel := by
          obtain ⟨dv, df, heq, hlen⟩ :=
            expandir_forma mapa cel.1 cel.2 rota direcoes s.visitados resto
          have hvl : (expandirCom direcoes mapa cel.1 cel.2 rota
              s.visitados resto).1.length = s.visitados.length + dv.length := by
            rw [heq]
            simp
          have hfl : (expandirCom direcoes mapa cel.1 cel.2 rota
              s.visitados resto).2.length = resto.length + df.length := by
            rw [heq]
            simp
          have hbound : (expandirCom direcoes mapa cel.1 cel.2 rota
              s.visitados resto).1.length ≤ linhasDe mapa * colunasDe mapa :=
            nodup_inb_limite mapa _ hinv2.visNodup hinv2.visInB
          have hsl : s.fila.length = resto.length + 1 := by
            rw [hf]
            simp
          rw [medida] at hmed ⊢
          simp only at hmed ⊢
          omega
        rw [hstep]
        exact ih _ hinv2 hrota hmed2

/-- The invariant holds in the initial state. -/
theorem inv_inicial (mapa : List (List Char)) (partida destino : Cell)
    (hpB : InB mapa partida) (hne : partida ≠ destino) :
    InvBusca mapa partida destino (estadoInicial partida) := by
  refine ⟨?_, ?_, ?_, ?_, ?_, ?_, ?_, ?_⟩
  · exact List.nodup_singleton partida
  · intro v hv
    rcases List.mem_singleton.mp hv with rfl
    exact hpB
  · exact List.mem_singleton.mpr rfl
  · intro e he
    rcases List.mem_singleton.mp he with rfl
    exact ⟨rfl, List.chain'_singleton partida, rfl, List.nodup_singleton _,
      fun x hx => hx⟩
  · intro e he
    rcases List.mem_singleton.mp he with rfl
    intro q hq
    have hqne : q ≠ [] := by
      intro h0
      rw [h0] at hq
      obtain ⟨h1, -, -⟩ := hq
      simp at h1
    show 1 ≤ q.length
    have := List.length_pos.mpr hqne
    omega
  · refine ⟨1, [(partida, [partida])], [], by simp [estadoInicial], ?_, ?_, ?_, le_refl 1, ?_⟩
    · intro e he
      rcases List.mem_singleton.mp he with rfl
      rfl
    · intro e he
      exact absurd he (List.not_mem_nil e)
    · intro h0
      exact absurd h0 (by simp)
    · intro v q hq hlen
      obtain ⟨h1, -, h3⟩ := hq
      cases q with
      | nil => simp at h1
      | cons x tq =>
        have htq : tq = [] := by
          rw [List.length_cons] at hlen
          exact List.length_eq_zero.mp (by omega)
        subst htq
        rw [List.head?_cons, Option.some.injEq] at h1
        have h4 : x = v := by
          rw [List.getLast?_cons, Option.some.injEq] at h3
          simpa using h3
        rw [← h4, ← h1]
        exact List.mem_singleton.mpr rfl
  · intro u hu
    rcases List.mem_singleton.mp hu with rfl
    exact Or.inl ⟨[u], List.mem_singleton.mpr rfl⟩
  · intro h0 hdm
    rcases List.mem_singleton.mp hdm with h1
    exact absurd h1.symm hne

/-- A returned marker pair gives distinct, in-bounds start and destination
cells carrying `'E'` and `'S'`. -/
theorem marcadores_distintos (mapa : List (List Char)) (partida destino : Cell)
    (hm : varrerMarcadores mapa = (some partida, some destino)) :
    partida ≠ destino ∧ InB mapa partida ∧
      getCell mapa partida.1 partida.2 = 'E' ∧ InB mapa destino ∧
      getCell mapa destino.1 destino.2 = 'S' := by
  have hp := marcador_partida mapa partida (by rw [hm])
  have hdm := marcador_destino mapa destino (by rw [hm])
  refine ⟨?_, hp.2, hp.1, hdm.2, hdm.1⟩
  intro he
  have := hp.1
  rw [he, hdm.1] at this
  exact absurd this (by decide)

/-- With both markers present, the engine returns the search output. -/
theorem encontrar_eq_buscar (mapa : List (List Char)) (hne : mapa ≠ [])
    (partida destino : Cell)
    (hm : varrerMarcadores mapa = (some partida, some destino)) :
    encontrar_melhor_rota mapa =
      some ((buscar mapa partida destino).rota,
        descartadasOf (buscar mapa partida destino).rota
          (buscar mapa partida destino).todos,
        mapa, (buscar mapa partida destino).snaps) := by
  cases mapa with
  | nil => exact absurd rfl hne
  | cons a t =>
    simp only [encontrar_melhor_rota]
    rw [hm]

/-- The initial measure is within the fuel `buscar` provides. -/
theorem medida_inicial (mapa : List (List Char)) (partida : Cell) :
    medida mapa (estadoInicial partida) ≤ linhasDe mapa * colunasDe mapa + 1 := by
  rw [medida, estadoInicial]
  simp

/-- C1: on a rectangular grid whose markers are found and whose destination
is reachable, the engine returns a route that reaches the destination and
whose length is minimal among all admissible routes. -/
theorem claim_C1_rota_otima (mapa : List (List Char)) (hret : Retangular mapa)
    (partida destino : Cell)
    (hm : varrerMarcadores mapa = (some partida, some destino))
    (hreach : ∃ q, CaminhoAte mapa partida destino q) :
    ∃ p d sn, encontrar_melhor_rota mapa = some (some p, d, mapa, sn) ∧
      RotaOtima mapa partida destino p := by
  obtain ⟨hnepd, hpB, hpE, hdB, hdS⟩ := marcadores_distintos mapa partida destino hm
  have hinv0 := inv_inicial mapa partida destino hpB hnepd
  have h := busca_loop_correta mapa partida destino
    (linhasDe mapa * colunasDe mapa + 1) (estadoInicial partida) hinv0 rfl
    (medida_inicial mapa partida)
  rcases hcase : (buscar mapa partida destino).rota with _ | p
  · exfalso
    have hb : (loopBFSCom direcoes mapa destino (linhasDe mapa * colunasDe mapa + 1)
        (estadoInicial partida)).rota = none := hcase
    obtain ⟨hfe, hinv'⟩ := h.2 hb
    exact busca_exaustao mapa partida destino _ hinv' hfe hb hreach
  · obtain ⟨h1, h2, h3, h4, h5⟩ := h.1 p hcase
    refine ⟨p, descartadasOf (buscar mapa partida destino).rota
      (buscar mapa partida destino).todos, (buscar mapa partida destino).snaps,
      ?_, ⟨h1, h2, h3⟩, h5⟩
    rw [encontrar_eq_buscar mapa hret.1 partida destino hm, hcase]

theorem claim_C1_witness :
    Retangular mapa3 ∧ varrerMarcadores mapa3 = (some (0, 0), some (2, 2)) ∧
      (∃ q, CaminhoAte mapa3 (0, 0) (2, 2) q) ∧
      ∃ p d sn, encontrar_melhor_rota mapa3 = some (some p, d, mapa3, sn) ∧
        RotaOtima mapa3 (0, 0) (2, 2) p :=
  ⟨⟨by decide, by decide⟩, by decide,
    ⟨[(0, 0), (1, 0), (2, 0), (2, 1), (2, 2)], by decide⟩,
    claim_C1_rota_otima mapa3 ⟨by decide, by decide⟩ (0, 0) (2, 2) (by decide)
      ⟨[(0, 0), (1, 0), (2, 0), (2, 1), (2, 2)], by decide⟩⟩

/-- Admissible moves are 4-adjacent. -/
theorem passo_adjacente (mapa : List (List Char)) (u v : Cell)
    (h : Passo mapa u v) : Adjacente u v := by
  obtain ⟨⟨d, hd, rfl⟩, -⟩ := h
  fin_cases hd <;> simp [Adjacente]

/-- All cells of a route from a free start cell are free. -/
theorem caminho_celulas_livres (mapa : List (List Char)) (partida : Cell)
    (p : List Cell) (hin : Livre mapa partida) (hhead : p.head? = some partida)
    (hchain : List.Chain' (Passo mapa) p) : ∀ x ∈ p, Livre mapa x :=
  cadeia_fechada mapa (Livre mapa) (fun _ _ _ hp => hp.2) p partida hhead hchain hin

/-- C6: whenever the engine returns a route, it is a valid simple path —
it starts at the Start cell, moves only between 4-adjacent cells, stays in
bounds and off `'#'` cells, and repeats no coordinate. -/
theorem claim_C6_rota_valida (mapa : List (List Char)) (p : List Cell)
    (d : List (List Cell)) (g : List (List Char)) (sn : List (List Cell))
    (h : encontrar_melhor_rota mapa = some (some p, d, g, sn)) :
    ∃ partida, (varrerMarcadores mapa).1 = some partida ∧
      p.head? = some partida ∧ List.Chain' Adjacente p ∧
      (∀ v ∈ p, InB mapa v ∧ getCell mapa v.1 v.2 ≠ '#') ∧ p.Nodup := by
  cases hmp : mapa with
  | nil =>
    rw [hmp] at h
    exact absurd h (by simp [encontrar_melhor_rota])
  | cons a t =>
    rw [← hmp]
    rcases hv : varrerMarcadores mapa with ⟨po, dq2⟩
    have hnemapa : mapa ≠ [] := by
      rw [hmp]
      exact List.cons_ne_nil a t
    rcases po with _ | partida
    · exfalso
      rw [hmp] at h hv
      simp only [encontrar_melhor_rota, hv] at h
      rcases dq2 with _ | destino <;> simp at h
    · rcases dq2 with _ | destino
      · exfalso
        rw [hmp] at h hv
        simp only [encontrar_melhor_rota, hv] at h
        simp at h
      · have hbr : (buscar mapa partida destino).rota = some p := by
          rw [encontrar_eq_buscar mapa hnemapa partida destino hv] at h
          rw [Option.some.injEq, Prod.mk.injEq] at h
          exact h.1
        obtain ⟨hnepd, hpB, hpE, hdB, hdS⟩ :=
          marcadores_distintos mapa partida destino hv
        have hc := busca_loop_correta mapa partida destino
          (linhasDe mapa * colunasDe mapa + 1) (estadoInicial partida)
          (inv_inicial mapa partida destino hpB hnepd) rfl
          (medida_inicial mapa partida)
        obtain ⟨h1, h2, h3, h4, h5⟩ := hc.1 p hbr
        refine ⟨partida, rfl, h1, ?_, ?_, h4⟩
        · exact List.Chain'.imp (fun u v hp => passo_adjacente mapa u v hp) h2
        · intro v hvp
          have hl := caminho_celulas_livres mapa partida p
            ⟨hpB, by rw [hpE]; decide⟩ h1 h2 v hvp
          exact ⟨hl.1, hl.2⟩

theorem claim_C6_witness :
    encontrar_melhor_rota mapa3 =
      some (some [(0, 0), (1, 0), (2, 0), (2, 1), (2, 2)], [[(0, 0), (0, 1)]],
        mapa3, [[(0, 0)], [(0, 0), (1, 0), (0, 1), (2, 0), (2, 1), (2, 2)]]) ∧
    ∃ partida, (varrerMarcadores mapa3).1 = some partida ∧
      ([((0 : Int), (0 : Int)), (1, 0), (2, 0), (2, 1), (2, 2)] : List Cell).head? =
        some partida ∧
      List.Chain' Adjacente [((0 : Int), (0 : Int)), (1, 0), (2, 0), (2, 1), (2, 2)] ∧
      (∀ v ∈ ([(0, 0), (1, 0), (2, 0), (2, 1), (2, 2)] : List Cell),
        InB mapa3 v ∧ getCell mapa3 v.1 v.2 ≠ '#') ∧
      ([((0 : Int), (0 : Int)), (1, 0), (2, 0), (2, 1), (2, 2)] : List Cell).Nodup :=
  ⟨rfl, claim_C6_rota_valida mapa3 _ _ _ _ rfl⟩
